import Mathlib

/-!
# Verification of the ISAAC tiler core against its specification

This file gives a shallow embedding, in Lean 4, of the core of the
`isaac_user_interface` mesh-tiling backend (the files
`backend/tiler/obj_geometry.py`, `backend/tiler/tile_system.py` and
`backend/tiler/tiler.py`), together with theorems settling the frozen
claims about it.

Modelling conventions:

* Python strings are modelled as `List Char`; Python text lines are the
  line contents without the trailing newline (the writers under study
  always terminate every line they emit with a newline, so nothing is
  lost).
* Python `float` (IEEE 754 double) arithmetic is modelled by exact
  rational arithmetic `ℚ`; the decimal repr/parse pair of Python floats
  (which satisfies `float(repr(x)) == x`) is modelled by an injective
  rational printer `reprQ` with a matching parser `parseQ`.  For the
  norm-based texel-size metric the reals `ℝ` are used instead, since
  that computation involves square roots.
* numpy `.astype(np.int32)` conversion truncates toward zero (C cast
  semantics); it is embedded as `truncQ`.  Claims evaluate it on values
  well inside the int32 range, so wrap-around is not modelled.
* Python list indexing (negative indices wrap once, out-of-range raises)
  is embedded as `pyListGet`; numpy integer fancy indexing has the same
  index semantics and is embedded with the same function.
* Fallible Python code (assertions, exceptions) is embedded with
  `Option`/`Except`.
-/

/-- Python strings, modelled as lists of characters. -/
abbrev Str := List Char

/-- Decidable equality for `Except` results (needed to evaluate the
embedded fallible code on concrete inputs). -/
instance {e a : Type _} [DecidableEq e] [DecidableEq a] :
    DecidableEq (Except e a) := fun x y =>
  match x, y with
  | .error e1, .error e2 =>
      if h : e1 = e2 then .isTrue (by rw [h])
      else .isFalse (fun hc => h (by injection hc))
  | .ok a1, .ok a2 =>
      if h : a1 = a2 then .isTrue (by rw [h])
      else .isFalse (fun hc => h (by injection hc))
  | .error _, .ok _ => .isFalse (fun hc => by injection hc)
  | .ok _, .error _ => .isFalse (fun hc => by injection hc)

/-- The error kinds surfaced by the embedded code (spec section 7). -/
inductive Err where
  | malformedMesh
  | malformedMaterial
  | badTexture
  | ioError
  | typeError
  deriving DecidableEq, Repr

/-- Whitespace recognized by Python `str.split` (the subset that can
appear in the files under study). -/
def isWs (c : Char) : Bool :=
  c = ' ' || c = '\t' || c = '\n' || c = '\r'

/-- `line.startswith("#")` from `Geometry.read`. -/
def startsHash : Str → Bool
  | [] => false
  | c :: _ => c = '#'

/-- Python `str.rstrip()`: drop trailing whitespace. -/
def rstrip (s : Str) : Str :=
  (s.reverse.dropWhile isWs).reverse

/-- Helper for `pySplitWs`: scans the input, `acc` holds the reversed
characters of the token currently being read. -/
def splitWsAux : Str → Str → List Str
  | [], acc => if acc = [] then [] else [acc.reverse]
  | c :: rest, acc =>
      if isWs c then
        if acc = [] then splitWsAux rest []
        else acc.reverse :: splitWsAux rest []
      else splitWsAux rest (c :: acc)

/-- Python `str.split()` (no argument): split on whitespace runs,
discarding empty fields. -/
def pySplitWs (s : Str) : List Str := splitWsAux s []

/-- Python `str.split("/")`: split on every slash, keeping empty
fields. -/
def pySplitSlash : Str → List Str
  | [] => [[]]
  | c :: rest =>
      if c = '/' then [] :: pySplitSlash rest
      else
        match pySplitSlash rest with
        | [] => [[c]]
        | s :: ss => (c :: s) :: ss

/-- Python `str.split(None, 1)`: split off the first whitespace-run
delimited token; the remainder keeps its internal and trailing
characters but loses the whitespace separating it from the first
token. -/
def pySplit1 (s : Str) : List Str :=
  let s1 := s.dropWhile isWs
  if s1 = [] then []
  else
    let tok := s1.takeWhile (fun c => !isWs c)
    let rest := (s1.drop tok.length).dropWhile isWs
    if rest = [] then [tok] else [tok, rest]

/-- Python list indexing `l[i]`: negative indices wrap once from the
end, anything out of `[-len, len)` raises (modelled as `none`).  numpy
integer fancy indexing resolves indices the same way. -/
def pyListGet {α : Type _} (l : List α) (i : ℤ) : Option α :=
  if 0 ≤ i then l.get? i.toNat
  else if 0 ≤ i + l.length then l.get? (i + l.length).toNat
  else none

/-- Python `dict.get(k, default)` over an association list. -/
def pyDictGetD {α : Type _} (d : List (Str × α)) (k : Str) (dflt : α) : α :=
  match d.find? (fun kv => kv.1 = k) with
  | some kv => kv.2
  | none => dflt

/-- Python `dict[k]` over an association list (`KeyError` as `none`). -/
def pyDictGet {κ α : Type _} [DecidableEq κ] (d : List (κ × α)) (k : κ) :
    Option α :=
  (d.find? (fun kv => kv.1 = k)).map (·.2)

/-- Python `dict[k] = v` over an association list. -/
def pyDictSet {κ α : Type _} [DecidableEq κ] (d : List (κ × α)) (k : κ)
    (v : α) : List (κ × α) :=
  if (d.find? (fun kv => kv.1 = k)).isSome then
    d.map (fun kv => if kv.1 = k then (k, v) else kv)
  else d ++ [(k, v)]

/-! ## Decimal integer printing and parsing

`natRepr`/`intRepr` embed Python `str(int)`, `parseDigits`/`pyInt`
embed Python `int(str)` (restricted to the optional-minus-sign decimal
forms that occur in the files under study). -/

/-- The decimal digit character for `d < 10`. -/
def digitChar (d : ℕ) : Char := Char.ofNat (48 + d)

/-- Decimal representation of a natural number, embedding Python
`str` on non-negative ints. -/
def natRepr (n : ℕ) : List Char :=
  if h : n < 10 then [digitChar n]
  else natRepr (n / 10) ++ [digitChar (n % 10)]
  decreasing_by exact Nat.div_lt_self (by omega) (by omega)

/-- Decimal representation of an integer, embedding Python `str`. -/
def intRepr (z : ℤ) : List Char :=
  if z < 0 then '-' :: natRepr (-z).toNat else natRepr z.toNat

/-- Numeric value of a decimal digit character. -/
def digitVal (c : Char) : Option ℕ :=
  if '0' ≤ c ∧ c ≤ '9' then some (c.toNat - 48) else none

/-- Accumulating decimal parser. -/
def parseDigitsAux (acc : ℕ) : List Char → Option ℕ
  | [] => some acc
  | c :: r => (digitVal c).bind fun d => parseDigitsAux (acc * 10 + d) r

/-- Parse a non-empty all-digit string. -/
def parseDigits (s : List Char) : Option ℕ :=
  if s = [] then none else parseDigitsAux 0 s

/-- Python `int(s)` restricted to optional-minus-sign decimal forms. -/
def pyInt (s : Str) : Option ℤ :=
  match s with
  | [] => none
  | c :: r =>
      if c = '-' then (parseDigits r).map (fun n => -(n : ℤ))
      else (parseDigits (c :: r)).map (fun n => (n : ℤ))

/-! ## Rational number printing and parsing

Python writes float coordinates with `"%s"`, whose output round-trips
(`float(repr(x)) == x`).  The embedding replaces IEEE doubles by exact
rationals and the float repr/parse pair by the injective printer
`reprQ` (numerator `/` denominator in canonical lowest terms) with the
matching parser `parseQ`. -/

/-- Canonical textual form of a rational coordinate value. -/
def reprQ (q : ℚ) : Str := intRepr q.num ++ '/' :: natRepr q.den

/-- Parser matching `reprQ`, embedding Python `float()` on the tokens
produced by the embedded writer. -/
def parseQ (s : Str) : Option ℚ :=
  match pySplitSlash s with
  | [a, b] =>
      match pyInt a, parseDigits b with
      | some n, some d => if d = 0 then none else some ((n : ℚ) / (d : ℚ))
      | _, _ => none
  | _ => none

/-- A well-formed token: non-empty and whitespace-free. -/
def wfTok (t : Str) : Prop := t ≠ [] ∧ ∀ c ∈ t, isWs c = false

instance (t : Str) : Decidable (wfTok t) := by unfold wfTok; infer_instance

/-- Join tokens with single spaces (how the embedded writers build
their lines). -/
def sp : List Str → Str
  | [] => []
  | [t] => t
  | t :: r => t ++ ' ' :: sp r


/-- Option-valued map over a list, embedding a Python loop that can
raise (first failure aborts). -/
def mapMO {α β : Type _} (f : α → Option β) : List α → Option (List β)
  | [] => some []
  | a :: r =>
      match f a, mapMO f r with
      | some b, some bs => some (b :: bs)
      | _, _ => none

/-! ## Command-name constants of the OBJ/MTL formats -/

def cV : Str := ['v']
def cVt : Str := ['v', 't']
def cVn : Str := ['v', 'n']
def cF : Str := ['f']
def cMtllib : Str := ['m', 't', 'l', 'l', 'i', 'b']
def cUsemtl : Str := ['u', 's', 'e', 'm', 't', 'l']
def cNewmtl : Str := ['n', 'e', 'w', 'm', 't', 'l']
def cMapKd : Str := ['m', 'a', 'p', '_', 'K', 'd']
def mtlExt : Str := ['.', 'm', 't', 'l']

/-- First character exists and is not whitespace. -/
def headNonWs : Str → Bool
  | [] => false
  | c :: _ => !isWs c

/-! ## Face-vertex tokens (`obj_geometry.parse_face_vertex` /
`obj_geometry.dump_face_vertex`) -/

/-- `parse_face_vertex` from `obj_geometry.py`: split the token on
`/`, map empty components to the sentinel `-1` and non-empty ones
through `int()`, then pad with `-1` up to length 3 (Python
`idx.extend([-1] * (3 - len(idx)))`, which pads nothing when the list
is already at least 3 long). -/
def parse_face_vertex (v : Str) : Option (List ℤ) :=
  (mapMO (fun s => if s = [] then some (-1 : ℤ) else pyInt s) (pySplitSlash v)).map
    (fun idx => idx ++ List.replicate (3 - idx.length) (-1))

/-- A face-vertex index triple (axis 2 of the `f` tensor): indices
into `v`, `vt`, `vn`. -/
abbrev FV := ℤ × ℤ × ℤ

/-- One triangle: three face-vertex triples (axes 1 and 2 of the `f`
tensor). -/
abbrev Face := FV × FV × FV

/-- `dump_face_vertex` from `obj_geometry.py`: serialize a wire-format
(1-based) index triple, eliding components equal to `-1`. -/
def dump_face_vertex (idx : FV) : Str :=
  if idx.2.1 = -1 then
    if idx.2.2 = -1 then intRepr idx.1
    else intRepr idx.1 ++ '/' :: '/' :: intRepr idx.2.2
  else if idx.2.2 = -1 then intRepr idx.1 ++ '/' :: intRepr idx.2.1
  else intRepr idx.1 ++ '/' :: intRepr idx.2.1 ++ '/' :: intRepr idx.2.2

/-- The writer's global `out_f = self.f + 1` on one index triple. -/
def wireUp (t : FV) : FV := (t.1 + 1, t.2.1 + 1, t.2.2 + 1)

/-- The reader's global `f = f - 1` on one index triple. -/
def wireDown (t : FV) : FV := (t.1 - 1, t.2.1 - 1, t.2.2 - 1)

/-- `f = f - 1` on a whole triangle. -/
def wireDown3 (fc : Face) : Face := (wireDown fc.1, wireDown fc.2.1, wireDown fc.2.2)

/-- `out_f = self.f + 1` on a whole triangle. -/
def wireUp3 (fc : Face) : Face := (wireUp fc.1, wireUp fc.2.1, wireUp fc.2.2)

/-- Net effect of `Geometry.read` on one face-vertex token:
`parse_face_vertex` followed by the global 1-based → 0-based shift
`f = f - 1` (which also shifts the `-1` sentinel to `-2`). -/
def read_face_vertex (v : Str) : Option (List ℤ) :=
  (parse_face_vertex v).map (List.map (· - 1))

/-- Net effect of `Geometry.write` on one internal index triple: the
global 0-based → 1-based shift `out_f = self.f + 1` followed by
`dump_face_vertex`. -/
def write_face_vertex (t : FV) : Str := dump_face_vertex (wireUp t)

/-- Regroup a flat index list into triples (the reader's
`reshape((-1, 3, 3))`, inner dimension); fails when the length is not
a multiple of three. -/
def chunkFV : List ℤ → Option (List FV)
  | [] => some []
  | a :: b :: c :: r => (chunkFV r).map (((a, b, c) : FV) :: ·)
  | _ => none

/-- Regroup face-vertex triples into triangles (the reader's
`reshape((-1, 3, 3))`, outer dimension). -/
def chunkFace : List FV → Option (List Face)
  | [] => some []
  | a :: b :: c :: r => (chunkFace r).map (((a, b, c) : Face) :: ·)
  | _ => none

/-! ## `MtlLib` (`obj_geometry.py`)

The absolute-path bookkeeping (`input_path`, `abs_path_from_file`) is
abstracted: the filesystem and image collaborators are parameters
keyed by the textual paths as they appear in the files. -/

/-- `MtlLib`: the MTL companion file.  `materials` maps a material
name (`None` possible, as in Python, when `map_Kd` precedes any
`newmtl`) to `(image path, image shape (H, W))`; `lines` is the
verbatim line sequence of the source file. -/
structure MtlLib where
  materials : List (Option Str × (Str × (ℕ × ℕ)))
  lines : List Str
  deriving DecidableEq

/-- The line-processing loop of `MtlLib.read`.  `imgEnv` embeds
`cv2.imread(...).shape[:2]`: `none` means the image is missing or
unreadable (Python crashes on `None.shape`). -/
def mtlReadGo (imgEnv : Str → Option (ℕ × ℕ))
    (mats : List (Option Str × (Str × (ℕ × ℕ)))) (cur : Option Str) :
    List Str → Except Err (List (Option Str × (Str × (ℕ × ℕ))))
  | [] => .ok mats
  | line :: rest =>
      if line = ['#'] then mtlReadGo imgEnv mats cur rest
      else
        match pySplit1 line with
        | [cmd, arg0] =>
            let arg := rstrip arg0
            if cmd = cNewmtl then mtlReadGo imgEnv mats (some arg) rest
            else if cmd = cMapKd then
              match imgEnv arg with
              | some hw => mtlReadGo imgEnv (pyDictSet mats cur (arg, hw)) cur rest
              | none => .error .badTexture
            else mtlReadGo imgEnv mats cur rest
        | _ => mtlReadGo imgEnv mats cur rest

/-- `MtlLib.read`: parse an MTL file given the image collaborator. -/
def MtlLib.read (imgEnv : Str → Option (ℕ × ℕ)) (ls : List Str) :
    Except Err MtlLib :=
  (mtlReadGo imgEnv [] none ls).map (fun mats => ⟨mats, ls⟩)

/-- The per-line rewrite of `MtlLib.write`: `map_Kd` arguments are
looked up in the texture map (identity when absent), every other line
is emitted verbatim. -/
def rewriteKd (tm : List (Str × Str)) (line : Str) : Str :=
  if line = ['#'] then line
  else
    match pySplit1 line with
    | [cmd, arg0] =>
        if cmd = cMapKd then cMapKd ++ ' ' :: pyDictGetD tm (rstrip arg0) (rstrip arg0)
        else line
    | _ => line

/-- `MtlLib.write`: re-emit the stored lines, rewriting `map_Kd`
directives through the texture map (`texture_map=None` is the empty
map `[]`). -/
def MtlLib.write (ml : MtlLib) (tm : List (Str × Str)) : List Str :=
  ml.lines.map (rewriteKd tm)

/-! ## `Geometry` (`obj_geometry.py`) -/

/-- 3-vectors of (exactly modelled) float coordinates. -/
abbrev V3 := ℚ × ℚ × ℚ

def vadd (a b : V3) : V3 := (a.1 + b.1, a.2.1 + b.2.1, a.2.2 + b.2.2)
def vsub (a b : V3) : V3 := (a.1 - b.1, a.2.1 - b.2.1, a.2.2 - b.2.2)
def smul (s : ℚ) (a : V3) : V3 := (s * a.1, s * a.2.1, s * a.2.2)
def vmin (a b : V3) : V3 := (min a.1 b.1, min a.2.1 b.2.1, min a.2.2 b.2.2)
def vmax (a b : V3) : V3 := (max a.1 b.1, max a.2.1 b.2.1, max a.2.2 b.2.2)

/-- `Geometry`: the mesh container.  Numpy arrays become lists of
tuples; `f` is the M×3×3 index tensor with 0-based indices; `f_mtl`
values are `len(usemtl) - 1` at face-read time, hence `-1` is possible
when a face precedes every `usemtl`. -/
structure Geometry where
  v : List V3
  vt : List (ℚ × ℚ)
  vn : List V3
  f : List Face
  mtllib : Option MtlLib
  usemtl : List Str
  f_mtl : List ℤ
  deriving DecidableEq

/-- Accumulator state of the `Geometry.read` line loop.  `fflat` is
the flat `array.array("l")` of face indices before the final
`reshape((-1, 3, 3))`. -/
structure RdSt where
  v : List V3 := []
  vt : List (ℚ × ℚ) := []
  vn : List V3 := []
  fflat : List ℤ := []
  usemtl : List Str := []
  f_mtl : List ℤ := []
  mtllib : Option MtlLib := none
  deriving DecidableEq

/-- One iteration of the `Geometry.read` line loop.  `assert` failures
and `float()`/`int()` parse errors are `MalformedMesh`; a missing MTL
companion is `IOError`; unknown commands are warned about and
ignored. -/
def readLine (imgEnv : Str → Option (ℕ × ℕ)) (fsEnv : Str → Option (List Str))
    (st : RdSt) (line : Str) : Except Err RdSt :=
  if startsHash line then .ok st
  else
    match pySplitWs line with
    | [] => .ok st
    | cmd :: args =>
        if cmd = cV then
          match args with
          | [a, b, c] =>
              match parseQ a, parseQ b, parseQ c with
              | some x, some y, some z => .ok { st with v := st.v ++ [(x, y, z)] }
              | _, _, _ => .error .malformedMesh
          | _ => .error .malformedMesh
        else if cmd = cVt then
          match args with
          | [a, b] =>
              match parseQ a, parseQ b with
              | some x, some y => .ok { st with vt := st.vt ++ [(x, y)] }
              | _, _ => .error .malformedMesh
          | _ => .error .malformedMesh
        else if cmd = cVn then
          match args with
          | [a, b, c] =>
              match parseQ a, parseQ b, parseQ c with
              | some x, some y, some z => .ok { st with vn := st.vn ++ [(x, y, z)] }
              | _, _, _ => .error .malformedMesh
          | _ => .error .malformedMesh
        else if cmd = cF then
          match args with
          | [a, b, c] =>
              match parse_face_vertex a, parse_face_vertex b, parse_face_vertex c with
              | some l1, some l2, some l3 =>
                  .ok { st with fflat := st.fflat ++ l1 ++ l2 ++ l3,
                                f_mtl := st.f_mtl ++ [(st.usemtl.length : ℤ) - 1] }
              | _, _, _ => .error .malformedMesh
          | _ => .error .malformedMesh
        else if cmd = cMtllib then
          match args with
          | [p] =>
              match fsEnv p with
              | none => .error .ioError
              | some mls =>
                  match MtlLib.read imgEnv mls with
                  | .ok ml => .ok { st with mtllib := some ml }
                  | .error e => .error e
          | _ => .error .malformedMesh
        else if cmd = cUsemtl then
          match args with
          | [nm] => .ok { st with usemtl := st.usemtl ++ [nm] }
          | _ => .error .malformedMesh
        else .ok st

/-- The `Geometry.read` line loop. -/
def readLines (imgEnv : Str → Option (ℕ × ℕ)) (fsEnv : Str → Option (List Str)) :
    RdSt → List Str → Except Err RdSt
  | st, [] => .ok st
  | st, l :: ls => do
      let st1 ← readLine imgEnv fsEnv st l
      readLines imgEnv fsEnv st1 ls

/-- `Geometry.read`: run the line loop, reshape the flat face-index
array into M×3×3, and shift all indices from 1-based wire format to
0-based (`f = f - 1`, which turns the `-1` absent sentinel into
`-2`). -/
def Geometry.read (imgEnv : Str → Option (ℕ × ℕ))
    (fsEnv : Str → Option (List Str)) (ls : List Str) : Except Err Geometry := do
  let st ← readLines imgEnv fsEnv {} ls
  match chunkFV st.fflat with
  | none => .error .malformedMesh
  | some fvs =>
      match chunkFace fvs with
      | none => .error .malformedMesh
      | some faces =>
          .ok { v := st.v, vt := st.vt, vn := st.vn,
                f := faces.map wireDown3,
                mtllib := st.mtllib, usemtl := st.usemtl, f_mtl := st.f_mtl }

/-- `"v %s %s %s"` -/
def vLine (p : V3) : Str := sp [cV, reprQ p.1, reprQ p.2.1, reprQ p.2.2]

/-- `"vt %s %s"` -/
def vtLine (p : ℚ × ℚ) : Str := sp [cVt, reprQ p.1, reprQ p.2]

/-- `"vn %s %s %s"` -/
def vnLine (p : V3) : Str := sp [cVn, reprQ p.1, reprQ p.2.1, reprQ p.2.2]

/-- `"f %s %s %s"` after the global `out_f = self.f + 1`. -/
def fLine (fc : Face) : Str :=
  sp [cF, dump_face_vertex (wireUp fc.1), dump_face_vertex (wireUp fc.2.1),
    dump_face_vertex (wireUp fc.2.2)]

/-- `"usemtl {name}"` -/
def usemtlLine (nm : Str) : Str := sp [cUsemtl, nm]

/-- `"mtllib {rel}"`: the writer derives the companion path from the
output path (`splitext(output_path)[0] + ".mtl"`, re-relativized to
the same directory), abstracted here by the output file stem. -/
def mtllibLine (stem : Str) : Str := sp [cMtllib, stem ++ mtlExt]

/-- The face-emitting loop of `Geometry.write`: a blank line plus a
`usemtl` line at every change of `f_mtl` (including before the first
face, since `last_f_mtl` starts as `None`).  `usemtl[f_mtl]` uses
Python list indexing; an unresolvable index raises (`IndexError`). -/
def faceLinesGo (S : List Str) : Option ℤ → List (Face × ℤ) → Except Err (List Str)
  | _, [] => .ok []
  | last, (fc, m) :: rest =>
      if some m = last then
        (faceLinesGo S (some m) rest).map (fun ls => fLine fc :: ls)
      else
        match pyListGet S m with
        | some nm =>
            (faceLinesGo S (some m) rest).map
              (fun ls => [] :: usemtlLine nm :: fLine fc :: ls)
        | none => .error .malformedMesh

/-- `Geometry.write`: emit the OBJ line sequence and (when a material
library is attached) the rewritten MTL line sequence.  `stem` stands
for the output path without extension; `tm` is the texture map
(`None` = `[]`). -/
def Geometry.write (g : Geometry) (stem : Str) (tm : List (Str × Str)) :
    Except Err (List Str × Option (List Str)) :=
  (faceLinesGo g.usemtl none (g.f.zip g.f_mtl)).map (fun fls =>
    ((match g.mtllib with | some _ => [mtllibLine stem] | none => []) ++
      g.v.map vLine ++ g.vt.map vtLine ++ g.vn.map vnLine ++ fls,
     g.mtllib.map (fun ml => ml.write tm)))

/-! ## `garbage_collect` (`obj_geometry.py`) -/

/-- `np.iinfo(np.int32).max`, the poison value for unreferenced
remap slots. -/
def INT32_MAX : ℤ := 2147483647

/-- Insert a value into a strictly sorted list, keeping it strictly
sorted (helper realizing `np.unique`). -/
def insertSortedDedup (x : ℤ) : List ℤ → List ℤ
  | [] => [x]
  | y :: r =>
      if x < y then x :: y :: r
      else if x = y then y :: r
      else y :: insertSortedDedup x r

/-- `np.unique`: the sorted list of distinct values. -/
def npUnique (refs : List ℤ) : List ℤ := refs.foldr insertSortedDedup []

/-- Resolve a (possibly negative) index against an array of length
`n`, numpy/Python style; meaningful only when `idxOK n r`. -/
def pyIdxRaw (n : ℕ) (r : ℤ) : ℕ := if r < 0 then (r + n).toNat else r.toNat

/-- Index validity for an array of length `n`: `-n ≤ r < n`. -/
def idxOK (n : ℕ) (r : ℤ) : Bool := decide (-(n : ℤ) ≤ r) && decide (r < (n : ℤ))

/-- The remap array built by
`remap_refs = np.full(n, INT32_MAX); remap_refs[keep_refs] = np.arange(keep_refs.size)`,
read at position `p`.  numpy fancy assignment applies the updates in
list order, so with duplicate target positions the last value wins. -/
def remapAt (n : ℕ) (keep : List ℤ) (p : ℕ) : ℤ :=
  keep.enum.foldl (fun acc jk => if pyIdxRaw n jk.2 = p then (jk.1 : ℤ) else acc)
    INT32_MAX

/-- `garbage_collect` from `obj_geometry.py`.  Fails (numpy
`IndexError`) when some reference is outside `[-n, n)`; that condition
covers building the remap array, reading `remap_refs[in_refs]` and
gathering `in_objects[keep_refs]`, since `keep_refs` holds exactly the
distinct values of `in_refs`. -/
def garbage_collect {β : Type _} (in_refs : List ℤ) (in_objects : List β) :
    Option (List ℤ × List β) :=
  let n := in_objects.length
  let keep_refs := npUnique in_refs
  if in_refs.all (idxOK n) then
    (mapMO (fun k => in_objects.get? (pyIdxRaw n k)) keep_refs).map
      (fun objs => (in_refs.map (fun r => remapAt n keep_refs (pyIdxRaw n r)), objs))
  else none

/-! ## `BoundingBox` (`tile_system.py`) -/

/-- Axis-aligned box with half-open `[min, max)` per-axis
containment. -/
structure BoundingBox where
  min_corner : V3
  max_corner : V3
  deriving DecidableEq

/-- `BoundingBox.is_inside` on a single point: `min <= p` and
`p < max` on all three axes. -/
def BoundingBox.is_inside_pt (b : BoundingBox) (p : V3) : Bool :=
  decide (b.min_corner.1 ≤ p.1) && decide (p.1 < b.max_corner.1) &&
  (decide (b.min_corner.2.1 ≤ p.2.1) && decide (p.2.1 < b.max_corner.2.1)) &&
  (decide (b.min_corner.2.2 ≤ p.2.2) && decide (p.2.2 < b.max_corner.2.2))

/-- `BoundingBox.is_inside` on an N×3 point array. -/
def BoundingBox.is_inside (b : BoundingBox) (pts : List V3) : List Bool :=
  pts.map b.is_inside_pt

/-! ## `Geometry` transforms (`obj_geometry.py`) -/

/-- `np.mean(self.v[self.f[:, :, 0], :], axis=1)`: per-face centroid of
the three referenced positions; numpy fancy indexing semantics on the
references (negative wraps once, out-of-range raises). -/
def faceCentroids (g : Geometry) : Option (List V3) :=
  mapMO (fun fc => do
    let p0 ← pyListGet g.v fc.1.1
    let p1 ← pyListGet g.v fc.2.1.1
    let p2 ← pyListGet g.v fc.2.2.1
    some (smul (1 / 3) (vadd p0 (vadd p1 p2)))) g.f

/-- The `keep_faces` mask of `Geometry.get_cropped`: one boolean per
face, true iff the bounding box contains the face centroid. -/
def keepFacesMask (g : Geometry) (bbox : BoundingBox) : Option (List Bool) :=
  (faceCentroids g).map bbox.is_inside

/-- Boolean-mask selection `arr[keep]`. -/
def maskSelect {α : Type _} (l : List α) (keep : List Bool) : List α :=
  (l.zip keep).filterMap (fun p => if p.2 then some p.1 else none)

/-- Extract one column (`f[:, :, axis]`) as the flat reference list
fed to `garbage_collect`. -/
def faceCol (sel : FV → ℤ) (fs : List Face) : List ℤ :=
  fs.flatMap (fun fc => [sel fc.1, sel fc.2.1, sel fc.2.2])

/-- Zip three face-vertex triples back into one triangle (used to
reassemble `f` from its three garbage-collected columns). -/
def zipFace : List FV → List FV → List FV → List Face
  | a :: as2, b :: bs, c :: cs => ((a, b, c) : Face) :: zipFace as2 bs cs
  | _, _, _ => []

/-- `Geometry.get_cropped`: keep the faces whose centroid is inside
`bbox`, then garbage-collect the three reference columns.  Any numpy
indexing error surfaces as `none`. -/
def Geometry.get_cropped (g : Geometry) (bbox : BoundingBox) : Option Geometry := do
  let keep ← keepFacesMask g bbox
  let f2 := maskSelect g.f keep
  let f_mtl2 := maskSelect g.f_mtl keep
  let (r0, v2) ← garbage_collect (faceCol (·.1) f2) g.v
  let (r1, vt2) ← garbage_collect (faceCol (·.2.1) f2) g.vt
  let (r2, vn2) ← garbage_collect (faceCol (·.2.2) f2) g.vn
  let c0 ← chunkFV r0
  let c1 ← chunkFV r1
  let c2 ← chunkFV r2
  some { v := v2, vt := vt2, vn := vn2,
         f := zipFace c0 c1 c2,
         mtllib := g.mtllib, usemtl := g.usemtl, f_mtl := f_mtl2 }

/-- `Geometry.get_bounding_box`: componentwise min/max over the vertex
positions (`np.amin`/`np.amax` raise on an empty array). -/
def Geometry.get_bounding_box (g : Geometry) : Option BoundingBox :=
  match g.v with
  | [] => none
  | p :: r => some ⟨r.foldl vmin p, r.foldl vmax p⟩

/-- `Geometry.is_empty`: no faces. -/
def Geometry.is_empty (g : Geometry) : Bool := g.f.isEmpty

/-! ## `TileSystem` (`tile_system.py`) -/

/-- A tile: zoom level and integer indices. -/
structure Tile where
  zoom : ℕ
  xi : ℤ
  yi : ℤ
  zi : ℤ
  deriving DecidableEq

/-- The tile system: origin of the `(0,0,0)` tiles and the width of
the zoom-0 cubes.  (The path-template field plays no role in the
claims under study and is omitted.) -/
structure TileSystem where
  tile_origin : V3
  tile_scale : ℚ
  deriving DecidableEq

/-- `get_zoom_scale`: `tile_scale / 2**zoom`. -/
def TileSystem.get_zoom_scale (ts : TileSystem) (zoom : ℕ) : ℚ :=
  ts.tile_scale / 2 ^ zoom

/-- `get_scale`: tile width at the tile's zoom. -/
def TileSystem.get_scale (ts : TileSystem) (tile : Tile) : ℚ :=
  ts.get_zoom_scale tile.zoom

/-- `get_index_vec`. -/
def TileSystem.get_index_vec (tile : Tile) : FV := (tile.xi, tile.yi, tile.zi)

/-- Integer index vector as a coordinate vector. -/
def ivec (t : FV) : V3 := ((t.1 : ℚ), (t.2.1 : ℚ), (t.2.2 : ℚ))

/-- `get_bounding_box`: nominal tile box
`[origin + scale*idx, origin + scale*(idx+1))`. -/
def TileSystem.get_bounding_box (ts : TileSystem) (tile : Tile) : BoundingBox :=
  let scale := ts.get_scale tile
  let min_corner := vadd ts.tile_origin (smul scale (ivec (TileSystem.get_index_vec tile)))
  ⟨min_corner, vadd min_corner (scale, scale, scale)⟩

/-- `get_centroid`: the body calls `self.get_scale()` without the
required `tile` argument, so Python raises `TypeError` before any
arithmetic; the intended arithmetic follows the failing call and is
unreachable. -/
def TileSystem.get_centroid (ts : TileSystem) (tile : Tile) : Except Err V3 := do
  let scale ← (Except.error Err.typeError : Except Err ℚ)
  pure (vadd ts.tile_origin (smul scale
    (vadd (ivec (TileSystem.get_index_vec tile)) (1 / 2, 1 / 2, 1 / 2))))

/-- numpy `.astype(np.int32)` on a float value: C-style truncation
toward zero (int32 wrap-around not modelled; all uses stay far inside
range). -/
def truncQ (q : ℚ) : ℤ := if 0 ≤ q then ⌊q⌋ else ⌈q⌉

/-- `get_index_vec_for_pt`:
`((pt - origin) / zoom_scale).astype(np.int32)`. -/
def TileSystem.get_index_vec_for_pt (ts : TileSystem) (pt : V3) (zoom : ℕ) : FV :=
  let s := ts.get_zoom_scale zoom
  (truncQ ((pt.1 - ts.tile_origin.1) / s),
   truncQ ((pt.2.1 - ts.tile_origin.2.1) / s),
   truncQ ((pt.2.2 - ts.tile_origin.2.2) / s))

/-- The `itertools.product([0, 1], repeat=3)` offsets, in iteration
order. -/
def childOffsets : List FV :=
  [(0, 0, 0), (0, 0, 1), (0, 1, 0), (0, 1, 1),
   (1, 0, 0), (1, 0, 1), (1, 1, 0), (1, 1, 1)]

/-- `get_children`: the eight tiles at `zoom + 1` with indices
`2 * parent + {0, 1}` per axis. -/
def TileSystem.get_children (_ts : TileSystem) (tile : Tile) : List Tile :=
  childOffsets.map (fun o =>
    ⟨tile.zoom + 1, 2 * tile.xi + o.1, 2 * tile.yi + o.2.1, 2 * tile.zi + o.2.2⟩)

/-! ## Driver (`tiler.py`) -/

/-- Auto-configured tile-system parameters. -/
structure AutoConfig where
  origin : V3
  scale : ℚ
  min_zoom : ℕ
  deriving DecidableEq

/-- `get_auto_config` from `tiler.py`:
`origin = centroid - 0.5 * 1.1 * box_dims` (per-axis span vector!),
`scale = 1.1 * max_dim`, `min_zoom = 0`.  Decimal literals are modelled
exactly. -/
def get_auto_config (g : Geometry) : Option AutoConfig :=
  (g.get_bounding_box).map (fun bbox =>
    let centroid := smul (1 / 2) (vadd bbox.min_corner bbox.max_corner)
    let box_dims := vsub bbox.max_corner bbox.min_corner
    let max_dim := max box_dims.1 (max box_dims.2.1 box_dims.2.2)
    { origin := vsub centroid (smul ((1 / 2) * (11 / 10)) box_dims),
      scale := (11 / 10) * max_dim,
      min_zoom := 0 })

/-- Observable outcome of one `tiler(...)` driver invocation. -/
structure DriverOutcome where
  wroteOutput : Bool
  warnedExists : Bool
  exitCode : ℕ
  deriving DecidableEq

/-- The guard at the top of `tiler()` in `tiler.py`: when the output
directory exists it logs a warning and returns normally (so `main()`
also returns normally and the process exits 0); otherwise the pipeline
runs and produces whatever outcome it produces (`runOutcome`). -/
def tiler (out_dir_exists : Bool) (runOutcome : DriverOutcome) : DriverOutcome :=
  if out_dir_exists then
    { wroteOutput := false, warnedExists := true, exitCode := 0 }
  else runOutcome


/-- Whether face `i` is kept when cropping to `b` (the `i`-th entry of
the `keep_faces` mask of `Geometry.get_cropped`). -/
def keptFaceB (g : Geometry) (b : BoundingBox) (i : ℕ) : Bool :=
  match keepFacesMask g b with
  | some m => (m.get? i).getD false
  | none => false

/-- Concrete one-triangle mesh (scenario 1 of the spec), used by
witnesses. -/
def g_tri : Geometry :=
  { v := [(0, 0, 0), (1, 0, 0), (0, 1, 0)],
    vt := [],
    vn := [],
    f := [((0, -2, -2), (1, -2, -2), (2, -2, -2))],
    mtllib := none,
    usemtl := [],
    f_mtl := [-1] }

/-- The unit box, used by witnesses. -/
def unitBox : BoundingBox := ⟨(0, 0, 0), (1, 1, 1)⟩

/-! ## Real-valued geometry for the texel-size metric

`get_median_texel_size` computes Euclidean norms (square roots), so
its embedding works over `ℝ`; the rest of the `Geometry` class is
mirrored here with real coordinates.  Position/normal rows are
`Fin 3 → ℝ` so that the row-wise `np.matmul(self.v, R.T)` becomes
`R.mulVec` ( `(v Rᵀ)ⱼ = Σₖ vₖ Rⱼₖ = (R.mulVec v) j` ). -/

abbrev V3R := Fin 3 → ℝ

/-- Real-coordinate mirror of `Geometry` (the fields used by
`get_rotated` and `get_median_texel_size`; `materials` is the
`mtllib.materials` name → image-shape `(H, W)` table). -/
structure GeometryR where
  v : List V3R
  vt : List (ℝ × ℝ)
  vn : List V3R
  f : List Face
  usemtl : List Str
  materials : List (Str × (ℕ × ℕ))
  f_mtl : List ℤ

/-- `Geometry.get_rotated`: replace `v` and `vn` by `v·Rᵀ` and
`vn·Rᵀ`; `vt` and everything else untouched. -/
def get_rotatedR (g : GeometryR) (R : Matrix (Fin 3) (Fin 3) ℝ) : GeometryR :=
  { g with v := g.v.map R.mulVec, vn := g.vn.map R.mulVec }

/-- Euclidean norm of a 3-vector (`np.linalg.norm, axis=2`). -/
noncomputable def nrm3 (w : V3R) : ℝ :=
  Real.sqrt (w 0 * w 0 + w 1 * w 1 + w 2 * w 2)

/-- Euclidean norm of a 2-vector. -/
noncomputable def nrm2 (w : ℝ × ℝ) : ℝ := Real.sqrt (w.1 * w.1 + w.2 * w.2)

/-- The xyz corner positions of one face
(`self.v[self.f[:, :, 0], :]`, with numpy index semantics). -/
def xyzTriOf (v : List V3R) (fc : Face) : Option (V3R × V3R × V3R) := do
  let p0 ← pyListGet v fc.1.1
  let p1 ← pyListGet v fc.2.1.1
  let p2 ← pyListGet v fc.2.2.1
  some (p0, p1, p2)

/-- The uv corner positions of one face
(`self.vt[self.f[:, :, 1], :]`). -/
def uvTriOf (vt : List (ℝ × ℝ)) (fc : Face) :
    Option ((ℝ × ℝ) × (ℝ × ℝ) × (ℝ × ℝ)) := do
  let q0 ← pyListGet vt fc.1.2.1
  let q1 ← pyListGet vt fc.2.1.2.1
  let q2 ← pyListGet vt fc.2.2.2.1
  some (q0, q1, q2)

/-- The three side lengths of one xyz triangle:
`np.diff(tris, axis=1, append=tris[:, 0:1, :])` followed by norms. -/
noncomputable def triLens3 (t : V3R × V3R × V3R) : List ℝ :=
  [nrm3 (t.2.1 - t.1), nrm3 (t.2.2 - t.2.1), nrm3 (t.1 - t.2.2)]

/-- The three side lengths of one pixel-space uv triangle. -/
noncomputable def triLens2 (t : (ℝ × ℝ) × (ℝ × ℝ) × (ℝ × ℝ)) : List ℝ :=
  [nrm2 (t.2.1 - t.1), nrm2 (t.2.2 - t.2.1), nrm2 (t.1 - t.2.2)]

/-- `uv_tris * f_image_size[:, np.newaxis, :]`: scale a uv pair by the
face's image shape `(H, W)` (u by H and v by W, exactly as the code
multiplies the arrays). -/
def scaleUV (hw : ℕ × ℕ) (q : ℝ × ℝ) : ℝ × ℝ :=
  (q.1 * (hw.1 : ℝ), q.2 * (hw.2 : ℝ))

/-- `np.median`: sort, then middle element (odd length) or mean of the
two middle elements (even length); the empty list has no median. -/
noncomputable def npMedian (xs : List ℝ) : Option ℝ :=
  match xs with
  | [] => none
  | _ :: _ =>
      let sorted := xs.mergeSort (fun a b => decide (a ≤ b))
      some (if xs.length % 2 = 1 then sorted.getD (xs.length / 2) 0
        else (sorted.getD (xs.length / 2 - 1) 0 +
          sorted.getD (xs.length / 2) 0) / 2)

/-- `Geometry.get_median_texel_size`: per-face xyz side lengths and
pixel-space uv side lengths, pairs with zero texel length discarded,
median of the ratios. -/
noncomputable def get_median_texel_sizeR (g : GeometryR) : Option ℝ :=
  match mapMO (xyzTriOf g.v) g.f, mapMO (pyDictGet g.materials) g.usemtl,
      mapMO (uvTriOf g.vt) g.f with
  | some xyzTris, some sizes, some uvTris =>
      match mapMO (pyListGet sizes) g.f_mtl with
      | some fSizes =>
          let xyzLens := xyzTris.flatMap triLens3
          let texTris := (uvTris.zip fSizes).map (fun p =>
            (scaleUV p.2 p.1.1, scaleUV p.2 p.1.2.1, scaleUV p.2 p.1.2.2))
          let texLens := texTris.flatMap triLens2
          let pairs := xyzLens.zip texLens
          let texel_size := (pairs.filter (fun pr =>
            if pr.2 = (0 : ℝ) then false else true)).map (fun pr => pr.1 / pr.2)
          npMedian texel_size
      | none => none
  | _, _, _ => none

/-- Empty real-coordinate geometry, used by witnesses. -/
def g_R0 : GeometryR := ⟨[], [], [], [], [], [], []⟩

/-! ## Round-trip support (`Geometry.write` → `Geometry.read`) -/

/-- The nine wire-format (1-based) indices one triangle contributes to
the reader's flat index array. -/
def wireFlat (fc : Face) : List ℤ :=
  [fc.1.1 + 1, fc.1.2.1 + 1, fc.1.2.2 + 1,
   fc.2.1.1 + 1, fc.2.1.2.1 + 1, fc.2.1.2.2 + 1,
   fc.2.2.1 + 1, fc.2.2.2.1 + 1, fc.2.2.2.2 + 1]

/-- The `map_Kd` argument of an MTL line, when the line carries one
(the branch of `mtlReadGo` that consults the image collaborator). -/
def kdArg (line : Str) : Option Str :=
  if line = ['#'] then none
  else
    match pySplit1 line with
    | [cmd, arg0] => if cmd = cMapKd then some (rstrip arg0) else none
    | _ => none

/-- All image paths `MtlLib.read` looks up in a line sequence. -/
def kdArgs (lines : List Str) : List Str := lines.filterMap kdArg

/-- The filesystem collaborator a re-read of the writer's output sees:
the companion path written by `Geometry.write` resolves to the emitted
MTL lines, everything else is missing. -/
def fsEnvOf (stem : Str) (mtl1 : Option (List Str)) : Str → Option (List Str) :=
  fun p => if p = stem ++ mtlExt then mtl1 else none

/-- One-triangle mesh whose single material name contains a space:
legal for the writer's `"usemtl {}".format(...)`, fatal for the
re-reader's whitespace split. -/
def gBadName : Geometry :=
  { v := [(0, 0, 0), (1, 0, 0), (0, 1, 0)],
    vt := [],
    vn := [],
    f := [((0, -2, -2), (1, -2, -2), (2, -2, -2))],
    mtllib := none,
    usemtl := [['a', ' ', 'b']],
    f_mtl := [0] }

/-- The OBJ line sequence `Geometry.write` emits for `gBadName`. -/
def badLines : List Str :=
  [vLine (0, 0, 0), vLine (1, 0, 0), vLine (0, 1, 0),
   [], usemtlLine ['a', ' ', 'b'],
   fLine ((0, -2, -2), (1, -2, -2), (2, -2, -2))]

/-- One-triangle mesh with one well-formed material name, used by the
round-trip witness. -/
def gC3 : Geometry :=
  { v := [(0, 0, 0), (1, 0, 0), (0, 1, 0)],
    vt := [],
    vn := [],
    f := [((0, -2, -2), (1, -2, -2), (2, -2, -2))],
    mtllib := none,
    usemtl := [['m', 'a', 't']],
    f_mtl := [0] }

/-! # Part 2: Theorems and supporting lemmas -/

theorem parseDigitsAux_append (acc : ℕ) (a b : List Char) :
    parseDigitsAux acc (a ++ b) =
      (parseDigitsAux acc a).bind fun acc2 => parseDigitsAux acc2 b := by
  induction a generalizing acc with
  | nil => rfl
  | cons c r ih =>
      simp only [List.cons_append, parseDigitsAux]
      cases digitVal c with
      | none => rfl
      | some d => simp [ih]

theorem digitVal_digitChar {d : ℕ} (h : d < 10) :
    digitVal (digitChar d) = some d := by
  interval_cases d <;> decide

theorem natRepr_mem_digit {n : ℕ} {c : Char} (h : c ∈ natRepr n) :
    ∃ d, d < 10 ∧ c = digitChar d := by
  induction n using Nat.strong_induction_on with
  | _ n ih =>
      by_cases h10 : n < 10
      · rw [natRepr, dif_pos h10] at h
        simp only [List.mem_singleton] at h
        exact ⟨n, h10, h⟩
      · rw [natRepr, dif_neg h10] at h
        rcases List.mem_append.mp h with h1 | h2
        · exact ih (n / 10) (Nat.div_lt_self (by omega) (by omega)) h1
        · simp only [List.mem_singleton] at h2
          exact ⟨n % 10, Nat.mod_lt _ (by omega), h2⟩

theorem natRepr_ne_nil (n : ℕ) : natRepr n ≠ [] := by
  rw [natRepr]
  split
  · simp
  · simp

theorem parseDigitsAux_natRepr (n acc : ℕ) :
    parseDigitsAux acc (natRepr n) =
      some (acc * 10 ^ (natRepr n).length + n) := by
  induction n using Nat.strong_induction_on generalizing acc with
  | _ n ih =>
      by_cases h10 : n < 10
      · rw [natRepr, dif_pos h10]
        simp [parseDigitsAux, digitVal_digitChar h10]
      · rw [natRepr, dif_neg h10]
        rw [parseDigitsAux_append]
        rw [ih (n / 10) (Nat.div_lt_self (by omega) (by omega)) acc]
        simp only [Option.some_bind, parseDigitsAux,
          digitVal_digitChar (Nat.mod_lt n (by omega)), Option.some_bind,
          List.length_append, List.length_singleton]
        congr 1
        rw [pow_succ, ← mul_assoc]
        omega

theorem parseDigits_natRepr (n : ℕ) : parseDigits (natRepr n) = some n := by
  rw [parseDigits, if_neg (by simpa using natRepr_ne_nil n)]
  simpa using parseDigitsAux_natRepr n 0

theorem natRepr_head_ne_dash (n : ℕ) {c : Char} {r : List Char}
    (h : natRepr n = c :: r) : c ≠ '-' := by
  have hc : c ∈ natRepr n := by rw [h]; exact List.mem_cons_self _ _
  obtain ⟨d, hd, rfl⟩ := natRepr_mem_digit hc
  interval_cases d <;> decide

theorem pyInt_natRepr (n : ℕ) : pyInt (natRepr n) = some (n : ℤ) := by
  rcases hr : natRepr n with _ | ⟨c, r⟩
  · exact absurd hr (natRepr_ne_nil n)
  · have hc := natRepr_head_ne_dash n hr
    rw [pyInt, if_neg hc, ← hr, parseDigits_natRepr]
    rfl

theorem pyInt_intRepr (z : ℤ) : pyInt (intRepr z) = some z := by
  rw [intRepr]
  split
  · rename_i hneg
    rw [pyInt, if_pos rfl, parseDigits_natRepr]
    have hz : (((-z).toNat : ℕ) : ℤ) = -z := Int.toNat_of_nonneg (by omega)
    simp [hz]
  · rename_i hpos
    rw [pyInt_natRepr]
    have hz : ((z.toNat : ℕ) : ℤ) = z := Int.toNat_of_nonneg (by omega)
    rw [hz]

theorem pySplitSlash_no_slash {a : Str} (h : ∀ c ∈ a, c ≠ '/') :
    pySplitSlash a = [a] := by
  induction a with
  | nil => rfl
  | cons c r ih =>
      have hc : c ≠ '/' := h c (List.mem_cons_self _ _)
      rw [pySplitSlash, if_neg hc, ih (fun x hx => h x (List.mem_cons_of_mem _ hx))]

theorem pySplitSlash_append {a : Str} (b : Str) (h : ∀ c ∈ a, c ≠ '/') :
    pySplitSlash (a ++ '/' :: b) = a :: pySplitSlash b := by
  induction a with
  | nil => simp [pySplitSlash]
  | cons c r ih =>
      have hc : c ≠ '/' := h c (List.mem_cons_self _ _)
      rw [List.cons_append, pySplitSlash, if_neg hc,
        ih (fun x hx => h x (List.mem_cons_of_mem _ hx))]

theorem natRepr_no_slash (n : ℕ) : ∀ c ∈ natRepr n, c ≠ '/' := by
  intro c hc
  obtain ⟨d, hd, rfl⟩ := natRepr_mem_digit hc
  interval_cases d <;> decide

theorem intRepr_no_slash (z : ℤ) : ∀ c ∈ intRepr z, c ≠ '/' := by
  intro c hc
  rw [intRepr] at hc
  split at hc
  · rcases List.mem_cons.mp hc with rfl | hc2
    · decide
    · exact natRepr_no_slash _ c hc2
  · exact natRepr_no_slash _ c hc

theorem natRepr_no_ws (n : ℕ) : ∀ c ∈ natRepr n, isWs c = false := by
  intro c hc
  obtain ⟨d, hd, rfl⟩ := natRepr_mem_digit hc
  interval_cases d <;> decide

theorem intRepr_no_ws (z : ℤ) : ∀ c ∈ intRepr z, isWs c = false := by
  intro c hc
  rw [intRepr] at hc
  split at hc
  · rcases List.mem_cons.mp hc with rfl | hc2
    · decide
    · exact natRepr_no_ws _ c hc2
  · exact natRepr_no_ws _ c hc

theorem intRepr_ne_nil (z : ℤ) : intRepr z ≠ [] := by
  rw [intRepr]
  split
  · simp
  · exact natRepr_ne_nil _

theorem parseQ_reprQ (q : ℚ) : parseQ (reprQ q) = some q := by
  rw [parseQ, reprQ, pySplitSlash_append _ (intRepr_no_slash q.num),
    pySplitSlash_no_slash (natRepr_no_slash q.den)]
  simp only [pyInt_intRepr, parseDigits_natRepr]
  rw [if_neg q.den_nz]
  rw [Rat.num_div_den q]

theorem splitWsAux_token {t : Str} (h : ∀ c ∈ t, isWs c = false)
    (s acc : Str) : splitWsAux (t ++ s) acc = splitWsAux s (t.reverse ++ acc) := by
  induction t generalizing acc with
  | nil => simp
  | cons c r ih =>
      have hc : isWs c = false := h c (List.mem_cons_self _ _)
      rw [List.cons_append, splitWsAux, if_neg (by simp [hc])]
      rw [ih (fun x hx => h x (List.mem_cons_of_mem _ hx))]
      simp

theorem pySplitWs_sp {ts : List Str} (h : ∀ t ∈ ts, wfTok t) :
    pySplitWs (sp ts) = ts := by
  induction ts with
  | nil => rfl
  | cons t r ih =>
      obtain ⟨hne, hws⟩ := h t (List.mem_cons_self _ _)
      cases r with
      | nil =>
          show splitWsAux (sp [t]) [] = [t]
          have h1 : sp [t] = t := rfl
          rw [h1, ← List.append_nil t, splitWsAux_token hws, splitWsAux,
            if_neg (by simpa using hne)]
          simp
      | cons t2 r2 =>
          show splitWsAux (t ++ ' ' :: sp (t2 :: r2)) [] = t :: (t2 :: r2)
          rw [splitWsAux_token hws]
          show splitWsAux (' ' :: sp (t2 :: r2)) (t.reverse ++ []) = _
          rw [splitWsAux, if_pos (by decide), if_neg (by simpa using hne)]
          have := ih (fun x hx => h x (List.mem_cons_of_mem _ hx))
          rw [pySplitWs] at this
          rw [this]
          simp

theorem pySplitWs_nil : pySplitWs [] = [] := rfl

/-! ## Face-vertex token round-trip lemmas -/

theorem parse_face_vertex_single (a : ℤ) :
    parse_face_vertex (intRepr a) = some [a, -1, -1] := by
  rw [parse_face_vertex, pySplitSlash_no_slash (intRepr_no_slash a)]
  rw [mapMO, if_neg (intRepr_ne_nil a), pyInt_intRepr, mapMO]
  rfl

theorem parse_face_vertex_pair (a b : ℤ) :
    parse_face_vertex (intRepr a ++ '/' :: intRepr b) = some [a, b, -1] := by
  rw [parse_face_vertex, pySplitSlash_append _ (intRepr_no_slash a),
    pySplitSlash_no_slash (intRepr_no_slash b)]
  rw [mapMO, if_neg (intRepr_ne_nil a), pyInt_intRepr,
    mapMO, if_neg (intRepr_ne_nil b), pyInt_intRepr, mapMO]
  rfl

theorem parse_face_vertex_triple (a b c : ℤ) :
    parse_face_vertex (intRepr a ++ '/' :: intRepr b ++ '/' :: intRepr c) =
      some [a, b, c] := by
  rw [List.append_assoc, List.cons_append]
  rw [parse_face_vertex, pySplitSlash_append _ (intRepr_no_slash a),
    pySplitSlash_append _ (intRepr_no_slash b),
    pySplitSlash_no_slash (intRepr_no_slash c)]
  rw [mapMO, if_neg (intRepr_ne_nil a), pyInt_intRepr,
    mapMO, if_neg (intRepr_ne_nil b), pyInt_intRepr,
    mapMO, if_neg (intRepr_ne_nil c), pyInt_intRepr, mapMO]
  rfl

theorem parse_face_vertex_gap (a c : ℤ) :
    parse_face_vertex (intRepr a ++ '/' :: '/' :: intRepr c) = some [a, -1, c] := by
  have h2 : pySplitSlash ('/' :: intRepr c) = [] :: pySplitSlash (intRepr c) := by
    rw [pySplitSlash, if_pos rfl]
  rw [parse_face_vertex, pySplitSlash_append _ (intRepr_no_slash a), h2,
    pySplitSlash_no_slash (intRepr_no_slash c)]
  rw [mapMO, if_neg (intRepr_ne_nil a), pyInt_intRepr, mapMO, if_pos rfl,
    mapMO, if_neg (intRepr_ne_nil c), pyInt_intRepr, mapMO]
  rfl

/-- `parse_face_vertex` inverts `dump_face_vertex` on every wire
triple. -/
theorem parse_dump_face_vertex (a b c : ℤ) :
    parse_face_vertex (dump_face_vertex (a, b, c)) = some [a, b, c] := by
  simp only [dump_face_vertex]
  by_cases hb : b = -1
  · by_cases hc : c = -1
    · rw [if_pos hb, if_pos hc, parse_face_vertex_single, hb, hc]
    · rw [if_pos hb, if_neg hc, parse_face_vertex_gap, hb]
  · by_cases hc : c = -1
    · rw [if_neg hb, if_pos hc, parse_face_vertex_pair, hc]
    · rw [if_neg hb, if_neg hc, parse_face_vertex_triple]

theorem intRepr_coe_nat (n : ℕ) : intRepr (n : ℤ) = natRepr n := by
  rw [intRepr, if_neg (by omega)]
  congr 1

/-! ## C1 -/

/-- C1 (counterexample): `Geometry.read` subtracts 1 from every
component of the parsed triple, including the `-1` absent sentinel, so
the token `1/1` becomes the internal triple `(0, 0, -2)`, not the
`(0, 0, -1)` stated by the claim. -/
theorem claim_C1_counterexample :
    read_face_vertex ['1', '/', '1'] = some [0, 0, -2] ∧
      read_face_vertex ['1', '/', '1'] ≠ some [0, 0, -1] := by
  constructor
  · decide
  · decide

/-- C1 (amended): for every face-vertex token of the forms `i`, `i/j`,
`i/j/k`, `i//k` (1-based components), `parse_face_vertex` maps empty
components to `-1` and present components to their integer value, and
the global `f = f - 1` of `Geometry.read` then decrements every
component, giving internal triples with present components `i - 1` and
absent components `-2`; in particular the tokens of the face lines
`f 1/1 2/2 3/3`, `f 1//1 2//2 3//3`, `f 1 2 3` parse to `(0, 0, -2)`,
`(0, -2, 0)`, `(0, -2, -2)` style triples, and `Geometry.write`
(`out_f = self.f + 1` followed by `dump_face_vertex`) serializes them
back to the same textual forms. -/
theorem claim_C1 (i j k : ℕ) :
    (read_face_vertex (natRepr (i + 1)) = some [(i : ℤ), -2, -2] ∧
      write_face_vertex ((i : ℤ), -2, -2) = natRepr (i + 1)) ∧
    (read_face_vertex (natRepr (i + 1) ++ '/' :: natRepr (j + 1)) =
        some [(i : ℤ), (j : ℤ), -2] ∧
      write_face_vertex ((i : ℤ), (j : ℤ), -2) =
        natRepr (i + 1) ++ '/' :: natRepr (j + 1)) ∧
    (read_face_vertex
        (natRepr (i + 1) ++ '/' :: natRepr (j + 1) ++ '/' :: natRepr (k + 1)) =
        some [(i : ℤ), (j : ℤ), (k : ℤ)] ∧
      write_face_vertex ((i : ℤ), (j : ℤ), (k : ℤ)) =
        natRepr (i + 1) ++ '/' :: natRepr (j + 1) ++ '/' :: natRepr (k + 1)) ∧
    (read_face_vertex (natRepr (i + 1) ++ '/' :: '/' :: natRepr (k + 1)) =
        some [(i : ℤ), -2, (k : ℤ)] ∧
      write_face_vertex ((i : ℤ), -2, (k : ℤ)) =
        natRepr (i + 1) ++ '/' :: '/' :: natRepr (k + 1)) := by
  have hi : ((i + 1 : ℕ) : ℤ) = (i : ℤ) + 1 := by push_cast; ring
  have hj : ((j + 1 : ℕ) : ℤ) = (j : ℤ) + 1 := by push_cast; ring
  have hk : ((k + 1 : ℕ) : ℤ) = (k : ℤ) + 1 := by push_cast; ring
  have ri : natRepr (i + 1) = intRepr ((i : ℤ) + 1) := by
    rw [← hi, intRepr_coe_nat]
  have rj : natRepr (j + 1) = intRepr ((j : ℤ) + 1) := by
    rw [← hj, intRepr_coe_nat]
  have rk : natRepr (k + 1) = intRepr ((k : ℤ) + 1) := by
    rw [← hk, intRepr_coe_nat]
  refine ⟨⟨?_, ?_⟩, ⟨?_, ?_⟩, ⟨?_, ?_⟩, ⟨?_, ?_⟩⟩
  · rw [read_face_vertex, ri, parse_face_vertex_single]
    simp
  · rw [write_face_vertex]
    simp only [wireUp]
    norm_num
    rw [dump_face_vertex, if_pos rfl, if_pos rfl, ri]
  · rw [read_face_vertex, ri, rj, parse_face_vertex_pair]
    simp
  · rw [write_face_vertex]
    simp only [wireUp]
    norm_num
    rw [dump_face_vertex, if_neg (show ¬((j : ℤ) + 1 = -1) by omega),
      if_pos rfl, ri, rj]
  · rw [read_face_vertex, ri, rj, rk, parse_face_vertex_triple]
    simp
  · rw [write_face_vertex]
    simp only [wireUp]
    rw [dump_face_vertex, if_neg (show ¬((j : ℤ) + 1 = -1) by omega),
      if_neg (show ¬((k : ℤ) + 1 = -1) by omega), ri, rj, rk]
  · rw [read_face_vertex, ri, rk, parse_face_vertex_gap]
    simp
  · rw [write_face_vertex]
    simp only [wireUp]
    norm_num
    rw [dump_face_vertex, if_pos rfl,
      if_neg (show ¬((k : ℤ) + 1 = -1) by omega), ri, rk]

/-! ## C2 -/

/-- On a positive-side interval starting at a non-negative multiple,
the `.astype(np.int32)` truncation recovers the index (truncation
toward zero agrees with floor on non-negative quotients). -/
theorem truncQ_between {o s p : ℚ} {i : ℤ} (hs : 0 < s) (hi : 0 ≤ i)
    (h1 : o + s * i < p) (h2 : p < o + s * i + s) :
    truncQ ((p - o) / s) = i := by
  have hc1 : (i : ℚ) * s = s * i := mul_comm _ _
  have hq1 : (i : ℚ) < (p - o) / s := by
    rw [lt_div_iff hs]
    linarith
  have hq2 : (p - o) / s < (i : ℚ) + 1 := by
    rw [div_lt_iff hs]
    have hc2 : ((i : ℚ) + 1) * s = s * i + s := by ring
    linarith
  have h0 : (0 : ℚ) ≤ (p - o) / s :=
    le_of_lt (lt_of_le_of_lt (by exact_mod_cast hi) hq1)
  rw [truncQ, if_pos h0]
  rw [Int.floor_eq_iff]
  · exact ⟨le_of_lt hq1, by exact_mod_cast hq2⟩

/-- C2 (counterexample): `get_index_vec_for_pt` does not round toward
−∞: the point `(-1/2, -1/2, -1/2)` is strictly interior to the
zoom-0 tile `(-1, -1, -1)` of the unit tile system at the origin, yet
the map returns `(0, 0, 0)` (numpy `.astype(np.int32)` truncates
toward zero). -/
theorem claim_C2_counterexample :
    (TileSystem.get_bounding_box ⟨(0, 0, 0), 1⟩ ⟨0, -1, -1, -1⟩).is_inside_pt
        (-1/2, -1/2, -1/2) = true ∧
      TileSystem.get_index_vec_for_pt ⟨(0, 0, 0), 1⟩ (-1/2, -1/2, -1/2) 0 =
        ((0 : ℤ), (0 : ℤ), (0 : ℤ)) ∧
      ((0 : ℤ), (0 : ℤ), (0 : ℤ)) ≠ ((-1 : ℤ), (-1 : ℤ), (-1 : ℤ)) := by
  refine ⟨?_, ?_, by decide⟩
  · simp only [TileSystem.get_bounding_box, TileSystem.get_scale,
      TileSystem.get_zoom_scale, TileSystem.get_index_vec, ivec, vadd, smul,
      BoundingBox.is_inside_pt, Bool.and_eq_true, decide_eq_true_eq]
    norm_num
  · simp only [TileSystem.get_index_vec_for_pt, TileSystem.get_zoom_scale,
      truncQ, Prod.mk.injEq]
    norm_num

/-- C2 (amended): for tiles with non-negative indices the round-trip
holds: `get_index_vec_for_pt` computes the truncation toward zero of
`(p - origin) / side_at(zoom)` per axis, which agrees with floor on
non-negative quotients, so every point strictly interior to
`get_bounding_box(Tile(z,i,j,k))` with `i, j, k ≥ 0` maps back to
`(i, j, k)`. -/
theorem claim_C2 (ts : TileSystem) (z : ℕ) (xi yi zi : ℤ) (p : V3)
    (hs : 0 < ts.tile_scale) (hx : 0 ≤ xi) (hy : 0 ≤ yi) (hz : 0 ≤ zi)
    (h1x : (ts.get_bounding_box ⟨z, xi, yi, zi⟩).min_corner.1 < p.1)
    (h2x : p.1 < (ts.get_bounding_box ⟨z, xi, yi, zi⟩).max_corner.1)
    (h1y : (ts.get_bounding_box ⟨z, xi, yi, zi⟩).min_corner.2.1 < p.2.1)
    (h2y : p.2.1 < (ts.get_bounding_box ⟨z, xi, yi, zi⟩).max_corner.2.1)
    (h1z : (ts.get_bounding_box ⟨z, xi, yi, zi⟩).min_corner.2.2 < p.2.2)
    (h2z : p.2.2 < (ts.get_bounding_box ⟨z, xi, yi, zi⟩).max_corner.2.2) :
    ts.get_index_vec_for_pt p z = (xi, yi, zi) := by
  have hs0 : 0 < ts.get_zoom_scale z := by
    rw [TileSystem.get_zoom_scale]
    positivity
  simp only [TileSystem.get_bounding_box, TileSystem.get_scale,
    TileSystem.get_index_vec, TileSystem.get_zoom_scale, ivec, vadd, smul]
    at h1x h2x h1y h2y h1z h2z
  simp only [TileSystem.get_index_vec_for_pt, TileSystem.get_zoom_scale]
  rw [TileSystem.get_zoom_scale] at hs0
  refine Prod.ext ?_ (Prod.ext ?_ ?_)
  · exact truncQ_between hs0 hx h1x h2x
  · exact truncQ_between hs0 hy h1y h2y
  · exact truncQ_between hs0 hz h1z h2z

/-- C2 (witness): concrete instance of the amended round-trip at
zoom 1. -/
theorem claim_C2_witness :
    TileSystem.get_index_vec_for_pt ⟨(0, 0, 0), 1⟩ (3/4, 1/8, 7/8) 1 =
      ((1 : ℤ), (0 : ℤ), (1 : ℤ)) :=
  claim_C2 ⟨(0, 0, 0), 1⟩ 1 1 0 1 (3/4, 1/8, 7/8) (by norm_num) (by decide)
    (by decide) (by decide) (by simp only [TileSystem.get_bounding_box, TileSystem.get_scale, TileSystem.get_zoom_scale, TileSystem.get_index_vec, ivec, vadd, smul]; norm_num) (by simp only [TileSystem.get_bounding_box, TileSystem.get_scale, TileSystem.get_zoom_scale, TileSystem.get_index_vec, ivec, vadd, smul]; norm_num) (by simp only [TileSystem.get_bounding_box, TileSystem.get_scale, TileSystem.get_zoom_scale, TileSystem.get_index_vec, ivec, vadd, smul]; norm_num) (by simp only [TileSystem.get_bounding_box, TileSystem.get_scale, TileSystem.get_zoom_scale, TileSystem.get_index_vec, ivec, vadd, smul]; norm_num) (by simp only [TileSystem.get_bounding_box, TileSystem.get_scale, TileSystem.get_zoom_scale, TileSystem.get_index_vec, ivec, vadd, smul]; norm_num)
    (by simp only [TileSystem.get_bounding_box, TileSystem.get_scale, TileSystem.get_zoom_scale, TileSystem.get_index_vec, ivec, vadd, smul]; norm_num)

/-! ## C4 -/

/-- C4 (counterexample): on the two-vertex mesh with bounding box
`(0,0,0)–(2,1,1)` (centroid `(1, 1/2, 1/2)`, per-axis spans
`(2, 1, 1)`, max span `w = 2`), `get_auto_config` returns origin
`(-1/10, -1/20, -1/20)` — the offset on the y and z axes is
`0.55 · 1`, not the claimed uniform `0.55 · w = 1.1` (which would give
`(-1/10, -3/5, -3/5)`). -/
theorem claim_C4_counterexample :
    get_auto_config
        { v := [(0, 0, 0), (2, 1, 1)], vt := [], vn := [], f := [],
          mtllib := none, usemtl := [], f_mtl := [] } =
      some { origin := (-1/10, -1/20, -1/20), scale := 11/5, min_zoom := 0 } ∧
      ((-1/20 : ℚ), (-1/20 : ℚ)) ≠ ((-3/5 : ℚ), (-3/5 : ℚ)) := by
  constructor
  · simp only [get_auto_config, Geometry.get_bounding_box, List.foldl,
      vmin, vmax, vadd, vsub, smul, Option.map_some, Option.some.injEq,
      AutoConfig.mk.injEq, Prod.mk.injEq]
    norm_num
  · simp only [ne_eq, Prod.mk.injEq, not_and]
    norm_num

/-- C4 (amended): `get_auto_config` sets
`origin = c - 0.55 · d` where `d` is the per-axis span *vector* of the
mesh bounding box (not the scalar max span `w`),
`scale = 1.10 · w`, `min_zoom = 0`; and whenever the box is
non-degenerate (`0 < w`) the whole mesh bounding box fits inside the
zoom-0 `(0,0,0)` tile of the resulting tile system. -/
theorem claim_C4 (g : Geometry) (bbox : BoundingBox)
    (hb : g.get_bounding_box = some bbox)
    (hw : 0 < max (bbox.max_corner.1 - bbox.min_corner.1)
        (max (bbox.max_corner.2.1 - bbox.min_corner.2.1)
          (bbox.max_corner.2.2 - bbox.min_corner.2.2))) :
    ∃ cfg, get_auto_config g = some cfg ∧
      cfg.origin =
        vsub (smul (1/2) (vadd bbox.min_corner bbox.max_corner))
          (smul (11/20) (vsub bbox.max_corner bbox.min_corner)) ∧
      cfg.scale = (11/10) * max (bbox.max_corner.1 - bbox.min_corner.1)
          (max (bbox.max_corner.2.1 - bbox.min_corner.2.1)
            (bbox.max_corner.2.2 - bbox.min_corner.2.2)) ∧
      cfg.min_zoom = 0 ∧
      ∀ p : V3,
        bbox.min_corner.1 ≤ p.1 → p.1 ≤ bbox.max_corner.1 →
        bbox.min_corner.2.1 ≤ p.2.1 → p.2.1 ≤ bbox.max_corner.2.1 →
        bbox.min_corner.2.2 ≤ p.2.2 → p.2.2 ≤ bbox.max_corner.2.2 →
        (TileSystem.get_bounding_box ⟨cfg.origin, cfg.scale⟩
          ⟨0, 0, 0, 0⟩).is_inside_pt p = true := by
  obtain ⟨mn, mx⟩ := bbox
  obtain ⟨m1, m2, m3⟩ := mn
  obtain ⟨x1, x2, x3⟩ := mx
  have hcfg : get_auto_config g = some
      ⟨(1/2 * (m1 + x1) - 1/2 * (11/10) * (x1 - m1),
        1/2 * (m2 + x2) - 1/2 * (11/10) * (x2 - m2),
        1/2 * (m3 + x3) - 1/2 * (11/10) * (x3 - m3)),
       (11/10) * max (x1 - m1) (max (x2 - m2) (x3 - m3)), 0⟩ := by
    rw [get_auto_config, hb]
    rfl
  refine ⟨_, hcfg, ?_, rfl, rfl, ?_⟩
  · simp only [vsub, vadd, smul]
    refine Prod.ext ?_ (Prod.ext ?_ ?_) <;> · dsimp only; ring
  · intro p hp1 hp2 hp3 hp4 hp5 hp6
    obtain ⟨p1, p2, p3⟩ := p
    dsimp only at hp1 hp2 hp3 hp4 hp5 hp6 hw
    have hd1 : (0 : ℚ) ≤ x1 - m1 := by linarith
    have hd2 : (0 : ℚ) ≤ x2 - m2 := by linarith
    have hd3 : (0 : ℚ) ≤ x3 - m3 := by linarith
    have hw1 : x1 - m1 ≤ max (x1 - m1) (max (x2 - m2) (x3 - m3)) := le_max_left _ _
    have hw2 : x2 - m2 ≤ max (x1 - m1) (max (x2 - m2) (x3 - m3)) :=
      le_trans (le_max_left _ _) (le_max_right _ _)
    have hw3 : x3 - m3 ≤ max (x1 - m1) (max (x2 - m2) (x3 - m3)) :=
      le_trans (le_max_right _ _) (le_max_right _ _)
    set w := max (x1 - m1) (max (x2 - m2) (x3 - m3)) with hwdef
    simp only [TileSystem.get_bounding_box, TileSystem.get_scale,
      TileSystem.get_zoom_scale, TileSystem.get_index_vec, ivec, vadd, smul,
      vsub, BoundingBox.is_inside_pt, pow_zero, div_one,
      Bool.and_eq_true, decide_eq_true_eq]
    norm_num
    refine ⟨⟨⟨?_, ?_⟩, ?_, ?_⟩, ?_, ?_⟩ <;> linarith

/-- C4 (witness): the amended configuration and fit on the concrete
two-vertex mesh. -/
theorem claim_C4_witness :
    ∃ cfg, get_auto_config
        { v := [(0, 0, 0), (2, 1, 1)], vt := [], vn := [], f := [],
          mtllib := none, usemtl := [], f_mtl := [] } = some cfg ∧
      cfg.origin =
        vsub (smul (1/2) (vadd (0, 0, 0) (2, 1, 1)))
          (smul (11/20) (vsub (2, 1, 1) (0, 0, 0))) ∧
      cfg.scale = (11/10) * max ((2 : ℚ) - 0) (max ((1 : ℚ) - 0) ((1 : ℚ) - 0)) ∧
      cfg.min_zoom = 0 ∧
      ∀ p : V3,
        (0 : ℚ) ≤ p.1 → p.1 ≤ 2 → (0 : ℚ) ≤ p.2.1 → p.2.1 ≤ 1 →
        (0 : ℚ) ≤ p.2.2 → p.2.2 ≤ 1 →
        (TileSystem.get_bounding_box ⟨cfg.origin, cfg.scale⟩
          ⟨0, 0, 0, 0⟩).is_inside_pt p = true :=
  claim_C4 _ ⟨(0, 0, 0), (2, 1, 1)⟩
    (by simp only [Geometry.get_bounding_box, List.foldl, vmin, vmax,
      Option.some.injEq, BoundingBox.mk.injEq, Prod.mk.injEq]; norm_num)
    (by norm_num)

/-! ## C5 -/

/-- C5 (counterexample): when the output directory exists the driver
logs a warning, writes nothing, and `main()` returns normally — the
process exit status is 0, contradicting the claimed non-zero exit with
an OutputExists failure. -/
theorem claim_C5_counterexample :
    tiler true { wroteOutput := true, warnedExists := false, exitCode := 1 } =
      { wroteOutput := false, warnedExists := true, exitCode := 0 } := by
  decide

/-- C5 (amended): when the output directory already exists the driver
refuses to run: it writes nothing, reports the refusal only as a
logged warning (not as an error), and the process exits with status
zero regardless of what the pipeline would have produced. -/
theorem claim_C5 (runOutcome : DriverOutcome) :
    tiler true runOutcome =
      { wroteOutput := false, warnedExists := true, exitCode := 0 } := rfl

/-! ## C10 -/

/-- C10: `TileSystem.get_centroid` always raises: its body invokes
`self.get_scale()` without the required `tile` argument, which is a
`TypeError` in Python, so the tile-centroid query never returns a
value. -/
theorem claim_C10 (ts : TileSystem) (t : Tile) :
    ts.get_centroid t = Except.error Err.typeError := rfl

/-! ## C8 -/

/-- Halving the tile side: `side_at(z) = 2 * side_at(z+1)`. -/
theorem get_zoom_scale_succ (ts : TileSystem) (z : ℕ) :
    ts.get_zoom_scale z = 2 * ts.get_zoom_scale (z + 1) := by
  rw [TileSystem.get_zoom_scale, TileSystem.get_zoom_scale, pow_succ]
  have h2 : (2 : ℚ) ^ z ≠ 0 := pow_ne_zero _ two_ne_zero
  field_simp
  ring

/-- Per-axis characterization of the nominal tile box membership. -/
theorem inside_box_iff (ts : TileSystem) (tl : Tile) (px py pz : ℚ) :
    (ts.get_bounding_box tl).is_inside_pt (px, py, pz) = true ↔
      (ts.tile_origin.1 + ts.get_zoom_scale tl.zoom * (tl.xi : ℚ) ≤ px ∧
        px < ts.tile_origin.1 + ts.get_zoom_scale tl.zoom * (tl.xi : ℚ) +
          ts.get_zoom_scale tl.zoom) ∧
      (ts.tile_origin.2.1 + ts.get_zoom_scale tl.zoom * (tl.yi : ℚ) ≤ py ∧
        py < ts.tile_origin.2.1 + ts.get_zoom_scale tl.zoom * (tl.yi : ℚ) +
          ts.get_zoom_scale tl.zoom) ∧
      (ts.tile_origin.2.2 + ts.get_zoom_scale tl.zoom * (tl.zi : ℚ) ≤ pz ∧
        pz < ts.tile_origin.2.2 + ts.get_zoom_scale tl.zoom * (tl.zi : ℚ) +
          ts.get_zoom_scale tl.zoom) := by
  simp only [TileSystem.get_bounding_box, TileSystem.get_scale,
    TileSystem.get_index_vec, ivec, vadd, smul, BoundingBox.is_inside_pt,
    Bool.and_eq_true, decide_eq_true_eq]
  tauto

/-- One axis of the child-tiling law: the half-open parent cell is the
union of its two half-open child cells. -/
theorem axis_union {o s2 : ℚ} {i : ℤ} {x : ℚ} :
    (o + 2 * s2 * (i : ℚ) ≤ x ∧ x < o + 2 * s2 * (i : ℚ) + 2 * s2) ↔
      ((o + s2 * ((2 * i : ℤ) : ℚ) ≤ x ∧ x < o + s2 * ((2 * i : ℤ) : ℚ) + s2) ∨
       (o + s2 * ((2 * i + 1 : ℤ) : ℚ) ≤ x ∧
         x < o + s2 * ((2 * i + 1 : ℤ) : ℚ) + s2)) := by
  have e1 : s2 * ((2 * i : ℤ) : ℚ) = 2 * s2 * (i : ℚ) := by push_cast; ring
  have e2 : s2 * ((2 * i + 1 : ℤ) : ℚ) = 2 * s2 * (i : ℚ) + s2 := by
    push_cast; ring
  constructor
  · rintro ⟨h1, h2⟩
    by_cases hm : x < o + 2 * s2 * (i : ℚ) + s2
    · exact Or.inl ⟨by linarith, by linarith⟩
    · exact Or.inr ⟨by linarith, by linarith⟩
  · rintro (⟨h1, h2⟩ | ⟨h1, h2⟩)
    · have hs : 0 < s2 := by linarith
      exact ⟨by linarith, by linarith⟩
    · have hs : 0 < s2 := by linarith
      exact ⟨by linarith, by linarith⟩

/-- One axis of disjointness: two half-open grid cells with distinct
indices share no point. -/
theorem axis_disjoint {o s2 x : ℚ} {a b : ℤ} (hab : a < b)
    (h1 : o + s2 * (a : ℚ) ≤ x) (h2 : x < o + s2 * (a : ℚ) + s2)
    (h3 : o + s2 * (b : ℚ) ≤ x) (_h4 : x < o + s2 * (b : ℚ) + s2) : False := by
  have hs : 0 < s2 := by linarith
  have hcast : (a : ℚ) + 1 ≤ (b : ℚ) := by exact_mod_cast hab
  have hmul : s2 * ((a : ℚ) + 1) ≤ s2 * (b : ℚ) :=
    mul_le_mul_of_nonneg_left hcast (le_of_lt hs)
  have e : s2 * ((a : ℚ) + 1) = s2 * (a : ℚ) + s2 := by ring
  linarith

/-- C8: `get_children` yields exactly the eight tiles at `zoom + 1`
with indices `2·parent + {0,1}` per axis (in `itertools.product`
order); the parent's nominal bounding box equals the union of the
eight children's nominal boxes; and under half-open containment the
children's boxes are pairwise disjoint. -/
theorem claim_C8 (ts : TileSystem) (t : Tile) :
    ts.get_children t =
      [⟨t.zoom + 1, 2 * t.xi, 2 * t.yi, 2 * t.zi⟩,
       ⟨t.zoom + 1, 2 * t.xi, 2 * t.yi, 2 * t.zi + 1⟩,
       ⟨t.zoom + 1, 2 * t.xi, 2 * t.yi + 1, 2 * t.zi⟩,
       ⟨t.zoom + 1, 2 * t.xi, 2 * t.yi + 1, 2 * t.zi + 1⟩,
       ⟨t.zoom + 1, 2 * t.xi + 1, 2 * t.yi, 2 * t.zi⟩,
       ⟨t.zoom + 1, 2 * t.xi + 1, 2 * t.yi, 2 * t.zi + 1⟩,
       ⟨t.zoom + 1, 2 * t.xi + 1, 2 * t.yi + 1, 2 * t.zi⟩,
       ⟨t.zoom + 1, 2 * t.xi + 1, 2 * t.yi + 1, 2 * t.zi + 1⟩] ∧
    (∀ p : V3, (ts.get_bounding_box t).is_inside_pt p = true ↔
      ∃ c ∈ ts.get_children t,
        (ts.get_bounding_box c).is_inside_pt p = true) ∧
    (∀ c1 ∈ ts.get_children t, ∀ c2 ∈ ts.get_children t, c1 ≠ c2 →
      ∀ p : V3, ¬((ts.get_bounding_box c1).is_inside_pt p = true ∧
        (ts.get_bounding_box c2).is_inside_pt p = true)) := by
  refine ⟨by simp [TileSystem.get_children, childOffsets], ?_, ?_⟩
  · intro p
    obtain ⟨px, py, pz⟩ := p
    have hs2 := get_zoom_scale_succ ts t.zoom
    rw [inside_box_iff, hs2]
    constructor
    · rintro ⟨hx, hy, hz⟩
      have hxu := axis_union.mp hx
      have hyu := axis_union.mp hy
      have hzu := axis_union.mp hz
      rcases hxu with hxc | hxc <;> rcases hyu with hyc | hyc <;>
        rcases hzu with hzc | hzc
      · exact ⟨⟨t.zoom + 1, 2 * t.xi, 2 * t.yi, 2 * t.zi⟩,
          by simp [TileSystem.get_children, childOffsets],
          (inside_box_iff ts _ px py pz).mpr ⟨hxc, hyc, hzc⟩⟩
      · exact ⟨⟨t.zoom + 1, 2 * t.xi, 2 * t.yi, 2 * t.zi + 1⟩,
          by simp [TileSystem.get_children, childOffsets],
          (inside_box_iff ts _ px py pz).mpr ⟨hxc, hyc, hzc⟩⟩
      · exact ⟨⟨t.zoom + 1, 2 * t.xi, 2 * t.yi + 1, 2 * t.zi⟩,
          by simp [TileSystem.get_children, childOffsets],
          (inside_box_iff ts _ px py pz).mpr ⟨hxc, hyc, hzc⟩⟩
      · exact ⟨⟨t.zoom + 1, 2 * t.xi, 2 * t.yi + 1, 2 * t.zi + 1⟩,
          by simp [TileSystem.get_children, childOffsets],
          (inside_box_iff ts _ px py pz).mpr ⟨hxc, hyc, hzc⟩⟩
      · exact ⟨⟨t.zoom + 1, 2 * t.xi + 1, 2 * t.yi, 2 * t.zi⟩,
          by simp [TileSystem.get_children, childOffsets],
          (inside_box_iff ts _ px py pz).mpr ⟨hxc, hyc, hzc⟩⟩
      · exact ⟨⟨t.zoom + 1, 2 * t.xi + 1, 2 * t.yi, 2 * t.zi + 1⟩,
          by simp [TileSystem.get_children, childOffsets],
          (inside_box_iff ts _ px py pz).mpr ⟨hxc, hyc, hzc⟩⟩
      · exact ⟨⟨t.zoom + 1, 2 * t.xi + 1, 2 * t.yi + 1, 2 * t.zi⟩,
          by simp [TileSystem.get_children, childOffsets],
          (inside_box_iff ts _ px py pz).mpr ⟨hxc, hyc, hzc⟩⟩
      · exact ⟨⟨t.zoom + 1, 2 * t.xi + 1, 2 * t.yi + 1, 2 * t.zi + 1⟩,
          by simp [TileSystem.get_children, childOffsets],
          (inside_box_iff ts _ px py pz).mpr ⟨hxc, hyc, hzc⟩⟩
    · rintro ⟨c, hc, hpc⟩
      simp only [TileSystem.get_children, childOffsets, List.map_cons,
        List.map_nil, List.mem_cons, List.not_mem_nil, or_false] at hc
      rcases hc with rfl | rfl | rfl | rfl | rfl | rfl | rfl | rfl <;>
        (obtain ⟨hx, hy, hz⟩ := (inside_box_iff ts _ px py pz).mp hpc
         simp only [add_zero] at hx hy hz)
      · exact ⟨axis_union.mpr (Or.inl hx), axis_union.mpr (Or.inl hy),
          axis_union.mpr (Or.inl hz)⟩
      · exact ⟨axis_union.mpr (Or.inl hx), axis_union.mpr (Or.inl hy),
          axis_union.mpr (Or.inr hz)⟩
      · exact ⟨axis_union.mpr (Or.inl hx), axis_union.mpr (Or.inr hy),
          axis_union.mpr (Or.inl hz)⟩
      · exact ⟨axis_union.mpr (Or.inl hx), axis_union.mpr (Or.inr hy),
          axis_union.mpr (Or.inr hz)⟩
      · exact ⟨axis_union.mpr (Or.inr hx), axis_union.mpr (Or.inl hy),
          axis_union.mpr (Or.inl hz)⟩
      · exact ⟨axis_union.mpr (Or.inr hx), axis_union.mpr (Or.inl hy),
          axis_union.mpr (Or.inr hz)⟩
      · exact ⟨axis_union.mpr (Or.inr hx), axis_union.mpr (Or.inr hy),
          axis_union.mpr (Or.inl hz)⟩
      · exact ⟨axis_union.mpr (Or.inr hx), axis_union.mpr (Or.inr hy),
          axis_union.mpr (Or.inr hz)⟩
  · intro c1 hm1 c2 hm2 hne p hboth
    obtain ⟨px, py, pz⟩ := p
    obtain ⟨hb1, hb2⟩ := hboth
    rw [inside_box_iff] at hb1 hb2
    obtain ⟨⟨a1, a2⟩, ⟨b1, b2⟩, d1, d2⟩ := hb1
    obtain ⟨⟨a3, a4⟩, ⟨b3, b4⟩, d3, d4⟩ := hb2
    simp only [TileSystem.get_children, childOffsets, List.map_cons,
      List.map_nil, List.mem_cons, List.not_mem_nil, or_false] at hm1 hm2
    rcases hm1 with rfl | rfl | rfl | rfl | rfl | rfl | rfl | rfl <;>
      rcases hm2 with rfl | rfl | rfl | rfl | rfl | rfl | rfl | rfl <;>
      simp only [add_zero] at a1 a2 a3 a4 b1 b2 b3 b4 d1 d2 d3 d4 <;>
      first
        | exact hne rfl
        | exact axis_disjoint (by omega) a1 a2 a3 a4
        | exact axis_disjoint (by omega) a3 a4 a1 a2
        | exact axis_disjoint (by omega) b1 b2 b3 b4
        | exact axis_disjoint (by omega) b3 b4 b1 b2
        | exact axis_disjoint (by omega) d1 d2 d3 d4
        | exact axis_disjoint (by omega) d3 d4 d1 d2

/-- C8 (witness): in the unit tile system, the point
`(3/4, 1/4, 1/4)` lies in the root tile, hence in one of its eight
children. -/
theorem claim_C8_witness :
    ∃ c ∈ TileSystem.get_children ⟨(0, 0, 0), 1⟩ ⟨0, 0, 0, 0⟩,
      (TileSystem.get_bounding_box ⟨(0, 0, 0), 1⟩ c).is_inside_pt
        (3/4, 1/4, 1/4) = true := by
  refine ((claim_C8 ⟨(0, 0, 0), 1⟩ ⟨0, 0, 0, 0⟩).2.1 (3/4, 1/4, 1/4)).mp ?_
  rw [inside_box_iff]
  simp only [TileSystem.get_zoom_scale]
  norm_num

/-! ## C6 -/

theorem mapMO_get? {α β : Type _} (f : α → Option β) (l : List α)
    (l2 : List β) (h : mapMO f l = some l2) (i : ℕ) :
    l2.get? i = (l.get? i).bind f := by
  induction l generalizing l2 i with
  | nil =>
      rw [mapMO] at h
      injection h with h
      subst h
      simp
  | cons a r ih =>
      rcases hfa : f a with _ | b <;> rcases hmr : mapMO f r with _ | bs <;>
        simp only [mapMO, hfa, hmr, Option.some.injEq] at h
      · exact Option.noConfusion h
      · exact Option.noConfusion h
      · exact Option.noConfusion h
      · subst h
        cases i with
        | zero => simp [hfa]
        | succ k => simpa using ih bs hmr k

theorem insertSortedDedup_mem {a x : ℤ} {l : List ℤ} :
    a ∈ insertSortedDedup x l ↔ a = x ∨ a ∈ l := by
  induction l with
  | nil => simp [insertSortedDedup]
  | cons y r ih =>
      rw [insertSortedDedup]
      split_ifs with h1 h2
      · simp
      · subst h2
        simp only [List.mem_cons]
        tauto
      · simp only [List.mem_cons, ih]
        tauto

theorem insertSortedDedup_sorted {x : ℤ} {l : List ℤ}
    (h : l.Sorted (· < ·)) : (insertSortedDedup x l).Sorted (· < ·) := by
  induction l with
  | nil => simp [insertSortedDedup]
  | cons y r ih =>
      obtain ⟨hy, hr⟩ := List.sorted_cons.mp h
      rw [insertSortedDedup]
      split_ifs with h1 h2
      · refine List.sorted_cons.mpr ⟨?_, h⟩
        intro b hb
        rcases List.mem_cons.mp hb with rfl | hb2
        · exact h1
        · exact lt_trans h1 (hy b hb2)
      · exact h
      · have hyx : y < x := by omega
        refine List.sorted_cons.mpr ⟨?_, ih hr⟩
        intro b hb
        rcases insertSortedDedup_mem.mp hb with rfl | hb2
        · exact hyx
        · exact hy b hb2

theorem mem_npUnique {a : ℤ} {refs : List ℤ} :
    a ∈ npUnique refs ↔ a ∈ refs := by
  induction refs with
  | nil => simp [npUnique]
  | cons x r ih =>
      have he : npUnique (x :: r) = insertSortedDedup x (npUnique r) := rfl
      rw [he, insertSortedDedup_mem, ih, List.mem_cons]

theorem npUnique_sorted (refs : List ℤ) : (npUnique refs).Sorted (· < ·) := by
  induction refs with
  | nil => simp [npUnique]
  | cons x r ih => exact insertSortedDedup_sorted ih

/-- A strictly sorted list splits around any member, with all later
elements strictly larger. -/
theorem sorted_split {r : ℤ} {l : List ℤ} (hs : l.Sorted (· < ·))
    (hm : r ∈ l) :
    ∃ K1 K2, l = K1 ++ r :: K2 ∧ ∀ k ∈ K2, r < k := by
  obtain ⟨K1, K2, rfl⟩ := List.append_of_mem hm
  refine ⟨K1, K2, rfl, ?_⟩
  intro k hk
  have hsub : (r :: K2).Sublist (K1 ++ r :: K2) := List.sublist_append_right _ _
  exact List.rel_of_sorted_cons (hs.sublist hsub) k hk

theorem get?_append_length {α : Type _} (K1 : List α) (r : α) (K2 : List α) :
    (K1 ++ r :: K2).get? K1.length = some r := by
  induction K1 with
  | nil => rfl
  | cons a t ih => simpa using ih

theorem mem_enumFrom_snd {α : Type _} {q : ℕ × α} {k : ℕ} {l : List α}
    (h : q ∈ List.enumFrom k l) : q.2 ∈ l := by
  induction l generalizing k with
  | nil => simp [List.enumFrom] at h
  | cons a r ih =>
      rw [List.enumFrom_cons] at h
      rcases List.mem_cons.mp h with rfl | h2
      · exact List.mem_cons_self _ _
      · exact List.mem_cons_of_mem _ (ih h2)

theorem foldl_assign_out (n p : ℕ) (pairs : List (ℕ × ℤ)) (acc : ℤ)
    (h : ∀ q ∈ pairs, pyIdxRaw n q.2 ≠ p) :
    pairs.foldl (fun a jk => if pyIdxRaw n jk.2 = p then (jk.1 : ℤ) else a)
      acc = acc := by
  induction pairs generalizing acc with
  | nil => rfl
  | cons q rest ih =>
      rw [List.foldl_cons, if_neg (h q (List.mem_cons_self _ _))]
      exact ih acc (fun x hx => h x (List.mem_cons_of_mem _ hx))

/-- Reading the remap array at the position of a valid non-negative
kept reference returns its rank: the only later fancy-assignment that
could overwrite this slot would come from a larger kept value hitting
the same position, which cannot happen for non-negative positions. -/
theorem remapAt_rank (n : ℕ) (r : ℤ) (K1 K2 : List ℤ) (h0 : 0 ≤ r)
    (hK2 : ∀ k ∈ K2, r < k) :
    remapAt n (K1 ++ r :: K2) r.toNat = (K1.length : ℤ) := by
  rw [remapAt, List.enum_append, List.foldl_append, List.enumFrom_cons,
    List.foldl_cons]
  rw [if_pos (by rw [pyIdxRaw, if_neg (by omega)])]
  apply foldl_assign_out
  intro q hq
  have hk := hK2 q.2 (mem_enumFrom_snd hq)
  rw [pyIdxRaw, if_neg (by omega)]
  omega

/-- C6: `garbage_collect` is correct on valid references: whenever it
succeeds, every in-range non-negative input reference is remapped to a
non-negative output reference that addresses a row of `out_objects`
equal to the originally referenced row of `in_objects`
(`out_objects[out_refs[i], :] == in_objects[in_refs[i], :]`). -/
theorem claim_C6 {β : Type _} (in_refs : List ℤ) (in_objects : List β)
    (out_refs : List ℤ) (out_objects : List β)
    (hgc : garbage_collect in_refs in_objects = some (out_refs, out_objects))
    (i : ℕ) (r : ℤ) (hr : in_refs.get? i = some r)
    (h0 : 0 ≤ r) (hn : r < in_objects.length) :
    ∃ m : ℕ, out_refs.get? i = some ((m : ℕ) : ℤ) ∧
      out_objects.get? m = in_objects.get? r.toNat := by
  rw [garbage_collect] at hgc
  by_cases hall : in_refs.all (idxOK in_objects.length) = true
  · rw [if_pos hall] at hgc
    rcases hmo : mapMO (fun k => in_objects.get? (pyIdxRaw in_objects.length k))
        (npUnique in_refs) with _ | objs
    · rw [hmo] at hgc
      simp at hgc
    · rw [hmo] at hgc
      simp only [Option.map_some', Option.some.injEq, Prod.mk.injEq] at hgc
      obtain ⟨hrefs, hobjs⟩ := hgc
      have hmem : r ∈ npUnique in_refs :=
        mem_npUnique.mpr (List.get?_mem hr)
      obtain ⟨K1, K2, hsplit, hgt⟩ :=
        sorted_split (npUnique_sorted in_refs) hmem
      refine ⟨K1.length, ?_, ?_⟩
      · rw [← hrefs, List.get?_map, hr, Option.map_some']
        congr 1
        rw [pyIdxRaw, if_neg (by omega), hsplit]
        exact remapAt_rank _ _ _ _ h0 hgt
      · rw [← hobjs]
        rw [mapMO_get? _ _ _ hmo K1.length, hsplit, get?_append_length]
        rw [Option.some_bind, pyIdxRaw, if_neg (by omega)]
  · rw [if_neg hall] at hgc
    simp at hgc

/-- C6 (witness): concrete garbage collection with a `-2` absent
sentinel alongside valid references. -/
theorem claim_C6_witness :
    ∃ m : ℕ, ([(1 : ℤ), 0, 2].get? 0 = some ((m : ℕ) : ℤ)) ∧
      ([(20 : ℤ), 10, 30].get? m = [(10 : ℤ), 20, 30].get? (0 : ℤ).toNat) := by
  have h := claim_C6 [0, -2, 2] [(10 : ℤ), 20, 30] [1, 0, 2] [20, 10, 30]
    (by decide) 0 0 (by decide) (by decide) (by decide)
  exact h

/-! ## C7 -/

theorem keptFaceB_eq {g : Geometry} {cs : List V3}
    (hc : faceCentroids g = some cs) (b : BoundingBox) {i : ℕ} {c : V3}
    (hi : cs.get? i = some c) : keptFaceB g b i = b.is_inside_pt c := by
  rw [keptFaceB]
  have hm : keepFacesMask g b = some (cs.map b.is_inside_pt) := by
    rw [keepFacesMask, hc, Option.map_some', BoundingBox.is_inside]
  rw [hm]
  have h2 : (cs.map b.is_inside_pt).get? i = some (b.is_inside_pt c) := by
    rw [List.get?_map, hi, Option.map_some']
  show ((cs.map b.is_inside_pt).get? i).getD false = b.is_inside_pt c
  rw [h2]
  rfl

/-- C7: cropping distributes over any partition of a parent box: if
the boxes `Bs` cover each point of `P` exactly once (and points
outside `P` zero times), then each face with a defined centroid is
kept by exactly one sub-box when its centroid lies in `P` (and by
none otherwise), and a face is kept by some sub-box iff its centroid
lies in `P` — because `get_cropped` keeps a face iff the box contains
the mean of its three position vertices. -/
theorem claim_C7 (g : Geometry) (P : BoundingBox) (Bs : List BoundingBox)
    (cs : List V3) (hc : faceCentroids g = some cs)
    (hpart : ∀ p : V3, Bs.countP (fun b => b.is_inside_pt p) =
      if P.is_inside_pt p then 1 else 0)
    (i : ℕ) (c : V3) (hi : cs.get? i = some c) :
    Bs.countP (fun b => keptFaceB g b i) =
      (if P.is_inside_pt c then 1 else 0) ∧
    ((∃ b ∈ Bs, keptFaceB g b i = true) ↔ P.is_inside_pt c = true) := by
  have hcong : ∀ b ∈ Bs, keptFaceB g b i = true ↔ b.is_inside_pt c = true :=
    fun b _ => by rw [keptFaceB_eq hc b hi]
  have hcount : Bs.countP (fun b => keptFaceB g b i) =
      Bs.countP (fun b => b.is_inside_pt c) := List.countP_congr hcong
  refine ⟨by rw [hcount, hpart], ?_⟩
  constructor
  · rintro ⟨b, hb, hkept⟩
    by_contra hout
    have h0 : Bs.countP (fun b => b.is_inside_pt c) = 0 := by
      rw [hpart]
      simp [Bool.not_eq_true] at hout
      rw [hout]
      rfl
    have : ¬(b.is_inside_pt c = true) :=
      List.countP_eq_zero.mp h0 b hb
    exact this ((hcong b hb).mp hkept)
  · intro hin
    have hpos : 0 < Bs.countP (fun b => b.is_inside_pt c) := by
      rw [hpart, hin]
      norm_num
    obtain ⟨b, hb, hbc⟩ := List.countP_pos.mp hpos
    exact ⟨b, hb, (hcong b hb).mpr hbc⟩

/-- C7 (witness): a single-triangle mesh partitioned by the unit box
itself. -/
theorem claim_C7_witness :
    ([unitBox].countP (fun b => keptFaceB g_tri b 0) =
      (if unitBox.is_inside_pt (1/3, 1/3, 0) then 1 else 0)) ∧
    ((∃ b ∈ [unitBox], keptFaceB g_tri b 0 = true) ↔
      unitBox.is_inside_pt (1/3, 1/3, 0) = true) := by
  refine claim_C7 g_tri unitBox [unitBox] [(1/3, 1/3, 0)] ?_ ?_ 0 _ rfl
  · simp only [faceCentroids, g_tri, mapMO, pyListGet, smul, vadd]
    norm_num [show (2 : ℤ).toNat = 2 from rfl, show (1 : ℤ).toNat = 1 from rfl,
      show (0 : ℤ).toNat = 0 from rfl]
  · intro p
    rw [List.countP_cons]
    simp

/-! ## C9 -/

theorem pyListGet_map {α β : Type _} (f : α → β) (l : List α) (i : ℤ) :
    pyListGet (l.map f) i = (pyListGet l i).map f := by
  rw [pyListGet, pyListGet, List.length_map]
  split_ifs with h1 h2
  · rw [List.get?_map]
  · rw [List.get?_map]
  · rfl

theorem mapMO_comp_map {α β γ : Type _} (f1 : α → Option β) (g : β → γ)
    (f2 : α → Option γ) (h : ∀ a, f2 a = (f1 a).map g) (l : List α) :
    mapMO f2 l = (mapMO f1 l).map (List.map g) := by
  induction l with
  | nil => rfl
  | cons a r ih =>
      rw [mapMO, mapMO, h a, ih]
      rcases f1 a with _ | b <;> rcases mapMO f1 r with _ | bs <;> rfl

theorem flatMap_map_eq {α β : Type _} (g : α → α) (f : α → List β)
    (h : ∀ a, f (g a) = f a) (l : List α) :
    (l.map g).flatMap f = l.flatMap f := by
  induction l with
  | nil => rfl
  | cons a r ih => simp [List.flatMap_cons, h a, ih]

/-- Orthogonal rotations preserve the Euclidean norm. -/
theorem nrm3_mulVec {R : Matrix (Fin 3) (Fin 3) ℝ}
    (hR : R.transpose * R = 1) (d : V3R) : nrm3 (R.mulVec d) = nrm3 d := by
  have entry : ∀ i j : Fin 3, R 0 i * R 0 j + R 1 i * R 1 j + R 2 i * R 2 j =
      if i = j then 1 else 0 := by
    intro i j
    have hij := congrFun (congrFun hR i) j
    simpa [Matrix.mul_apply, Matrix.transpose_apply, Matrix.one_apply,
      Fin.sum_univ_three] using hij
  have h00 : R 0 0 * R 0 0 + R 1 0 * R 1 0 + R 2 0 * R 2 0 = 1 := by
    have h := entry 0 0
    rwa [if_pos rfl] at h
  have h11 : R 0 1 * R 0 1 + R 1 1 * R 1 1 + R 2 1 * R 2 1 = 1 := by
    have h := entry 1 1
    rwa [if_pos rfl] at h
  have h22 : R 0 2 * R 0 2 + R 1 2 * R 1 2 + R 2 2 * R 2 2 = 1 := by
    have h := entry 2 2
    rwa [if_pos rfl] at h
  have h01 : R 0 0 * R 0 1 + R 1 0 * R 1 1 + R 2 0 * R 2 1 = 0 := by
    have h := entry 0 1
    rwa [if_neg (by decide)] at h
  have h02 : R 0 0 * R 0 2 + R 1 0 * R 1 2 + R 2 0 * R 2 2 = 0 := by
    have h := entry 0 2
    rwa [if_neg (by decide)] at h
  have h10 : R 0 1 * R 0 0 + R 1 1 * R 1 0 + R 2 1 * R 2 0 = 0 := by
    have h := entry 1 0
    rwa [if_neg (by decide)] at h
  have h12 : R 0 1 * R 0 2 + R 1 1 * R 1 2 + R 2 1 * R 2 2 = 0 := by
    have h := entry 1 2
    rwa [if_neg (by decide)] at h
  have h20 : R 0 2 * R 0 0 + R 1 2 * R 1 0 + R 2 2 * R 2 0 = 0 := by
    have h := entry 2 0
    rwa [if_neg (by decide)] at h
  have h21 : R 0 2 * R 0 1 + R 1 2 * R 1 1 + R 2 2 * R 2 1 = 0 := by
    have h := entry 2 1
    rwa [if_neg (by decide)] at h
  rw [nrm3, nrm3]
  congr 1
  simp only [Matrix.mulVec, Matrix.dotProduct, Fin.sum_univ_three]
  linear_combination (d 0 * d 0) * h00 + (d 0 * d 1) * h01 + (d 0 * d 2) * h02 +
    (d 1 * d 0) * h10 + (d 1 * d 1) * h11 + (d 1 * d 2) * h12 +
    (d 2 * d 0) * h20 + (d 2 * d 1) * h21 + (d 2 * d 2) * h22

/-- C9: `get_median_texel_size` is invariant under rotation of the
geometry: `get_rotated(R)` replaces `v` and `vn` by `v·Rᵀ` and
`vn·Rᵀ`, leaves `vt`, faces, materials and image shapes unchanged, and
orthogonal rotations preserve all xyz edge lengths, hence all
xyz/texel ratios and their median. -/
theorem claim_C9 (g : GeometryR) (R : Matrix (Fin 3) (Fin 3) ℝ)
    (hR : R.transpose * R = 1) :
    get_median_texel_sizeR (get_rotatedR g R) = get_median_texel_sizeR g := by
  have hpt : ∀ fc : Face, xyzTriOf (g.v.map R.mulVec) fc =
      (xyzTriOf g.v fc).map
        (fun t => (R.mulVec t.1, R.mulVec t.2.1, R.mulVec t.2.2)) := by
    intro fc
    rw [xyzTriOf, xyzTriOf, pyListGet_map, pyListGet_map, pyListGet_map]
    rcases pyListGet g.v fc.1.1 with _ | p0 <;>
      rcases pyListGet g.v fc.2.1.1 with _ | p1 <;>
      rcases pyListGet g.v fc.2.2.1 with _ | p2 <;> rfl
  have hv : mapMO (xyzTriOf (g.v.map R.mulVec)) g.f =
      (mapMO (xyzTriOf g.v) g.f).map
        (List.map (fun t => (R.mulVec t.1, R.mulVec t.2.1, R.mulVec t.2.2))) :=
    mapMO_comp_map _ _ _ hpt g.f
  rw [get_median_texel_sizeR, get_median_texel_sizeR]
  simp only [get_rotatedR]
  rw [hv]
  rcases ho : mapMO (xyzTriOf g.v) g.f with _ | tris
  · rw [Option.map_none']
  · rw [Option.map_some']
    rcases hm : mapMO (pyDictGet g.materials) g.usemtl with _ | sizes
    · dsimp only
    · rcases hu : mapMO (uvTriOf g.vt) g.f with _ | uvTris
      · dsimp only
      · rcases hf : mapMO (pyListGet sizes) g.f_mtl with _ | fSizes
        · dsimp only
          rw [hf]
        · have hlens : (tris.map
              (fun t => (R.mulVec t.1, R.mulVec t.2.1, R.mulVec t.2.2))).flatMap
                triLens3 = tris.flatMap triLens3 := by
            apply flatMap_map_eq
            intro t
            rw [triLens3, triLens3]
            simp only
            rw [← Matrix.mulVec_sub, ← Matrix.mulVec_sub, ← Matrix.mulVec_sub,
              nrm3_mulVec hR, nrm3_mulVec hR, nrm3_mulVec hR]
          dsimp only
          rw [hlens]

/-- C9 (witness): the identity rotation is orthogonal and the theorem
applies to the concrete empty geometry. -/
theorem claim_C9_witness :
    get_median_texel_sizeR (get_rotatedR g_R0 1) = get_median_texel_sizeR g_R0 :=
  claim_C9 g_R0 1 (by rw [Matrix.transpose_one, one_mul])

/-! ## C3 support: `pySplit1`, `rstrip` and token well-formedness -/

theorem dropWhile_headNonWs {l : Str} (h : headNonWs l = true) :
    l.dropWhile isWs = l := by
  cases l with
  | nil => rfl
  | cons c r =>
      rw [List.dropWhile_cons, if_neg]
      simp only [headNonWs, Bool.not_eq_true'] at h
      simp [h]

theorem dropWhile_head_false {α : Type _} {p : α → Bool} {l : List α} {c : α}
    {r : List α} (h : l.dropWhile p = c :: r) : p c = false := by
  induction l with
  | nil => exact absurd h (by simp)
  | cons a t ih =>
      rw [List.dropWhile_cons] at h
      by_cases ha : p a = true
      · exact ih (by rwa [if_pos ha] at h)
      · rw [if_neg ha] at h
        obtain ⟨rfl, -⟩ := List.cons.inj h
        simpa using ha

theorem takeWhile_token {t : Str} (ht : ∀ c ∈ t, isWs c = false) (c : Char)
    (hc : isWs c = true) (r : Str) :
    (t ++ c :: r).takeWhile (fun x => !isWs x) = t := by
  induction t with
  | nil =>
      rw [List.nil_append, List.takeWhile_cons, if_neg]
      simp [hc]
  | cons a s ih =>
      rw [List.cons_append, List.takeWhile_cons,
        if_pos (by simp [ht a (List.mem_cons_self _ _)])]
      rw [ih (fun x hx => ht x (List.mem_cons_of_mem _ hx))]

theorem pySplit1_two {cmd arg : Str} (hcmd : wfTok cmd)
    (harg : headNonWs arg = true) :
    pySplit1 (cmd ++ ' ' :: arg) = [cmd, arg] := by
  obtain ⟨hne, hws⟩ := hcmd
  have hh : headNonWs (cmd ++ ' ' :: arg) = true := by
    cases cmd with
    | nil => exact absurd rfl hne
    | cons c r => simpa [headNonWs] using hws c (List.mem_cons_self _ _)
  have hd : (cmd ++ ' ' :: arg).dropWhile isWs = cmd ++ ' ' :: arg :=
    dropWhile_headNonWs hh
  have ht : (cmd ++ ' ' :: arg).takeWhile (fun x => !isWs x) = cmd :=
    takeWhile_token hws ' ' (by decide) arg
  have hdw : (' ' :: arg).dropWhile isWs = arg := by
    rw [List.dropWhile_cons, if_pos (by decide)]
    exact dropWhile_headNonWs harg
  have hane : arg ≠ [] := by
    cases arg with
    | nil => simp [headNonWs] at harg
    | cons a r => simp
  simp only [pySplit1, hd, ht, List.drop_left, hdw]
  rw [if_neg (by simp), if_neg hane]

theorem pySplit1_eq_two {s cmd arg : Str} (h : pySplit1 s = [cmd, arg]) :
    wfTok cmd ∧ headNonWs arg = true := by
  simp only [pySplit1] at h
  by_cases h1 : s.dropWhile isWs = []
  · rw [if_pos h1] at h
    exact absurd h (by simp)
  · rw [if_neg h1] at h
    obtain ⟨c, r, hcr⟩ : ∃ c r, s.dropWhile isWs = c :: r := by
      cases hq : s.dropWhile isWs with
      | nil => exact absurd hq h1
      | cons c r => exact ⟨c, r, rfl⟩
    have hc : isWs c = false := dropWhile_head_false hcr
    by_cases h2 : (((s.dropWhile isWs).drop
        ((s.dropWhile isWs).takeWhile (fun x => !isWs x)).length).dropWhile isWs) = []
    · rw [if_pos h2] at h
      exact absurd h (by simp)
    · rw [if_neg h2] at h
      obtain ⟨hcmd, harg⟩ : (s.dropWhile isWs).takeWhile (fun x => !isWs x) = cmd ∧
          (((s.dropWhile isWs).drop
            ((s.dropWhile isWs).takeWhile (fun x => !isWs x)).length).dropWhile isWs) = arg := by
        simpa using h
      constructor
      · rw [← hcmd]
        constructor
        · rw [hcr, List.takeWhile_cons, if_pos (by simp [hc])]
          simp
        · intro x hx
          have := List.mem_takeWhile_imp hx
          simpa using this
      · rw [← harg]
        cases hq : (((s.dropWhile isWs).drop
            ((s.dropWhile isWs).takeWhile (fun x => !isWs x)).length).dropWhile isWs) with
        | nil => exact absurd hq h2
        | cons c2 r2 => simp [headNonWs, dropWhile_head_false hq]

theorem rstrip_eq_self {a : Str} (h : headNonWs a.reverse = true) :
    rstrip a = a := by
  rw [rstrip, dropWhile_headNonWs h, List.reverse_reverse]

theorem rstrip_rev_eq (a : Str) : (rstrip a).reverse = a.reverse.dropWhile isWs := by
  rw [rstrip, List.reverse_reverse]

theorem rstrip_wf {a : Str} (h : headNonWs a = true) :
    headNonWs (rstrip a) = true ∧ headNonWs (rstrip a).reverse = true := by
  obtain ⟨c, r, hcr⟩ : ∃ c r, a = c :: r := by
    cases a with
    | nil => simp [headNonWs] at h
    | cons c r => exact ⟨c, r, rfl⟩
  have hc : isWs c = false := by simpa [hcr, headNonWs] using h
  have hne : a.reverse.dropWhile isWs ≠ [] := by
    rw [Ne, List.dropWhile_eq_nil_iff]
    push_neg
    exact ⟨c, by simp [hcr], by simp [hc]⟩
  have hrne : rstrip a ≠ [] := by
    rw [rstrip]
    simpa using hne
  constructor
  · have hpre : rstrip a <+: a := by
      refine List.reverse_suffix.mp ?_
      rw [rstrip_rev_eq]
      exact List.dropWhile_suffix isWs
    obtain ⟨u, hu⟩ := hpre
    cases hq : rstrip a with
    | nil => exact absurd hq hrne
    | cons c2 r2 =>
        rw [hq, hcr, List.cons_append] at hu
        obtain ⟨rfl, -⟩ := List.cons.inj hu
        simp [headNonWs, hc]
  · rw [rstrip_rev_eq]
    cases hq : a.reverse.dropWhile isWs with
    | nil => exact absurd hq hne
    | cons c2 r2 => simp [headNonWs, dropWhile_head_false hq]

theorem wfTok_reprQ (q : ℚ) : wfTok (reprQ q) := by
  constructor
  · intro h
    rw [reprQ] at h
    exact intRepr_ne_nil q.num (List.append_eq_nil.mp h).1
  · intro c hc
    rw [reprQ] at hc
    rcases List.mem_append.mp hc with h | h
    · exact intRepr_no_ws _ c h
    · rcases List.mem_cons.mp h with rfl | h
      · decide
      · exact natRepr_no_ws _ c h

theorem dump_no_ws (t : FV) : ∀ c ∈ dump_face_vertex t, isWs c = false := by
  intro c hc
  have key : c ∈ intRepr t.1 ∨ c = '/' ∨ c ∈ intRepr t.2.1 ∨ c ∈ intRepr t.2.2 := by
    rw [dump_face_vertex] at hc
    split_ifs at hc
    · exact Or.inl hc
    · simp only [List.mem_append, List.mem_cons] at hc
      tauto
    · simp only [List.mem_append, List.mem_cons] at hc
      tauto
    · simp only [List.mem_append, List.mem_cons] at hc
      tauto
  rcases key with h | rfl | h | h
  · exact intRepr_no_ws _ c h
  · decide
  · exact intRepr_no_ws _ c h
  · exact intRepr_no_ws _ c h

theorem dump_ne_nil (t : FV) : dump_face_vertex t ≠ [] := by
  rw [dump_face_vertex]
  split_ifs <;> simp [intRepr_ne_nil]

theorem wfTok_dump (t : FV) : wfTok (dump_face_vertex t) :=
  ⟨dump_ne_nil t, dump_no_ws t⟩

theorem parse_dump_fv (t : FV) :
    parse_face_vertex (dump_face_vertex t) = some [t.1, t.2.1, t.2.2] := by
  obtain ⟨a, b, c⟩ := t
  exact parse_dump_face_vertex a b c

/-! ## C3 support: single-line reader lemmas -/

theorem readLine_nil (ie : Str → Option (ℕ × ℕ)) (fe : Str → Option (List Str))
    (st : RdSt) : readLine ie fe st [] = .ok st := rfl

theorem readLine_v (ie : Str → Option (ℕ × ℕ)) (fe : Str → Option (List Str))
    (st : RdSt) (p : V3) :
    readLine ie fe st (vLine p) = .ok { st with v := st.v ++ [p] } := by
  have hsp : pySplitWs (vLine p) = [cV, reprQ p.1, reprQ p.2.1, reprQ p.2.2] :=
    pySplitWs_sp (by
      intro t ht
      simp only [List.mem_cons, List.not_mem_nil, or_false] at ht
      rcases ht with rfl | rfl | rfl | rfl
      · decide
      · exact wfTok_reprQ _
      · exact wfTok_reprQ _
      · exact wfTok_reprQ _)
  rw [readLine, if_neg (by rw [show startsHash (vLine p) = false from rfl]; simp), hsp]
  dsimp only
  rw [if_pos rfl, parseQ_reprQ, parseQ_reprQ, parseQ_reprQ]

theorem readLine_vt (ie : Str → Option (ℕ × ℕ)) (fe : Str → Option (List Str))
    (st : RdSt) (p : ℚ × ℚ) :
    readLine ie fe st (vtLine p) = .ok { st with vt := st.vt ++ [p] } := by
  have hsp : pySplitWs (vtLine p) = [cVt, reprQ p.1, reprQ p.2] :=
    pySplitWs_sp (by
      intro t ht
      simp only [List.mem_cons, List.not_mem_nil, or_false] at ht
      rcases ht with rfl | rfl | rfl
      · decide
      · exact wfTok_reprQ _
      · exact wfTok_reprQ _)
  rw [readLine, if_neg (by rw [show startsHash (vtLine p) = false from rfl]; simp), hsp]
  dsimp only
  rw [if_neg (by decide), if_pos rfl, parseQ_reprQ, parseQ_reprQ]

theorem readLine_vn (ie : Str → Option (ℕ × ℕ)) (fe : Str → Option (List Str))
    (st : RdSt) (p : V3) :
    readLine ie fe st (vnLine p) = .ok { st with vn := st.vn ++ [p] } := by
  have hsp : pySplitWs (vnLine p) = [cVn, reprQ p.1, reprQ p.2.1, reprQ p.2.2] :=
    pySplitWs_sp (by
      intro t ht
      simp only [List.mem_cons, List.not_mem_nil, or_false] at ht
      rcases ht with rfl | rfl | rfl | rfl
      · decide
      · exact wfTok_reprQ _
      · exact wfTok_reprQ _
      · exact wfTok_reprQ _)
  rw [readLine, if_neg (by rw [show startsHash (vnLine p) = false from rfl]; simp), hsp]
  dsimp only
  rw [if_neg (by decide), if_neg (by decide), if_pos rfl,
    parseQ_reprQ, parseQ_reprQ, parseQ_reprQ]

theorem readLine_usemtl (ie : Str → Option (ℕ × ℕ)) (fe : Str → Option (List Str))
    (st : RdSt) {nm : Str} (hnm : wfTok nm) :
    readLine ie fe st (usemtlLine nm) = .ok { st with usemtl := st.usemtl ++ [nm] } := by
  have hsp : pySplitWs (usemtlLine nm) = [cUsemtl, nm] :=
    pySplitWs_sp (by
      intro t ht
      simp only [List.mem_cons, List.not_mem_nil, or_false] at ht
      rcases ht with rfl | rfl
      · decide
      · exact hnm)
  have hh : startsHash (usemtlLine nm) = false := rfl
  rw [readLine, if_neg (by rw [hh]; simp), hsp]
  dsimp only
  rw [if_neg (by decide), if_neg (by decide), if_neg (by decide),
    if_neg (by decide), if_neg (by decide), if_pos rfl]

theorem readLine_f (ie : Str → Option (ℕ × ℕ)) (fe : Str → Option (List Str))
    (st : RdSt) (fc : Face) :
    readLine ie fe st (fLine fc) = .ok { st with
      fflat := st.fflat ++ wireFlat fc,
      f_mtl := st.f_mtl ++ [(st.usemtl.length : ℤ) - 1] } := by
  have hsp : pySplitWs (fLine fc) = [cF, dump_face_vertex (wireUp fc.1),
      dump_face_vertex (wireUp fc.2.1), dump_face_vertex (wireUp fc.2.2)] :=
    pySplitWs_sp (by
      intro t ht
      simp only [List.mem_cons, List.not_mem_nil, or_false] at ht
      rcases ht with rfl | rfl | rfl | rfl
      · decide
      · exact wfTok_dump _
      · exact wfTok_dump _
      · exact wfTok_dump _)
  have hh : startsHash (fLine fc) = false := rfl
  rw [readLine, if_neg (by rw [hh]; simp), hsp]
  dsimp only
  rw [if_neg (by decide), if_neg (by decide), if_neg (by decide), if_pos rfl,
    parse_dump_fv, parse_dump_fv, parse_dump_fv]
  dsimp only
  rw [show ∀ A B C D : List ℤ, A ++ B ++ C ++ D = A ++ (B ++ (C ++ D)) from
    fun A B C D => by simp [List.append_assoc]]
  rfl

theorem readLine_mtllib (ie : Str → Option (ℕ × ℕ)) (fe : Str → Option (List Str))
    (st : RdSt) {stem : Str} (hst : wfTok (stem ++ mtlExt)) {mls : List Str}
    {ml : MtlLib} (hfe : fe (stem ++ mtlExt) = some mls)
    (hml : MtlLib.read ie mls = .ok ml) :
    readLine ie fe st (mtllibLine stem) = .ok { st with mtllib := some ml } := by
  have hsp : pySplitWs (mtllibLine stem) = [cMtllib, stem ++ mtlExt] :=
    pySplitWs_sp (by
      intro t ht
      simp only [List.mem_cons, List.not_mem_nil, or_false] at ht
      rcases ht with rfl | rfl
      · decide
      · exact hst)
  have hh : startsHash (mtllibLine stem) = false := by
    cases stem with
    | nil => rfl
    | cons c r => rfl
  rw [readLine, if_neg (by rw [hh]; simp), hsp]
  dsimp only
  rw [if_neg (by decide), if_neg (by decide), if_neg (by decide),
    if_neg (by decide), if_pos rfl, hfe]
  dsimp only
  rw [hml]

/-! ## C3 support: composing the reader over line blocks -/

theorem readLines_append (ie : Str → Option (ℕ × ℕ)) (fe : Str → Option (List Str))
    (A B : List Str) (st : RdSt) :
    readLines ie fe st (A ++ B) =
      (readLines ie fe st A).bind (fun st1 => readLines ie fe st1 B) := by
  induction A generalizing st with
  | nil => rfl
  | cons l ls ih =>
      rw [List.cons_append, readLines, readLines]
      cases h : readLine ie fe st l with
      | error e => rfl
      | ok st1 =>
          show readLines ie fe st1 (ls ++ B) = _
          rw [ih st1]
          rfl

theorem readLines_v_map (ie : Str → Option (ℕ × ℕ)) (fe : Str → Option (List Str))
    (ps : List V3) (st : RdSt) :
    readLines ie fe st (ps.map vLine) = .ok { st with v := st.v ++ ps } := by
  induction ps generalizing st with
  | nil => simp [readLines]
  | cons p ps ih =>
      rw [List.map_cons, readLines, readLine_v]
      show readLines ie fe { st with v := st.v ++ [p] } (ps.map vLine) = _
      rw [ih]
      rw [show (st.v ++ [p]) ++ ps = st.v ++ (p :: ps) from by
        rw [List.append_assoc]; rfl]

theorem readLines_vt_map (ie : Str → Option (ℕ × ℕ)) (fe : Str → Option (List Str))
    (ps : List (ℚ × ℚ)) (st : RdSt) :
    readLines ie fe st (ps.map vtLine) = .ok { st with vt := st.vt ++ ps } := by
  induction ps generalizing st with
  | nil => simp [readLines]
  | cons p ps ih =>
      rw [List.map_cons, readLines, readLine_vt]
      show readLines ie fe { st with vt := st.vt ++ [p] } (ps.map vtLine) = _
      rw [ih]
      rw [show (st.vt ++ [p]) ++ ps = st.vt ++ (p :: ps) from by
        rw [List.append_assoc]; rfl]

theorem readLines_vn_map (ie : Str → Option (ℕ × ℕ)) (fe : Str → Option (List Str))
    (ps : List V3) (st : RdSt) :
    readLines ie fe st (ps.map vnLine) = .ok { st with vn := st.vn ++ ps } := by
  induction ps generalizing st with
  | nil => simp [readLines]
  | cons p ps ih =>
      rw [List.map_cons, readLines, readLine_vn]
      show readLines ie fe { st with vn := st.vn ++ [p] } (ps.map vnLine) = _
      rw [ih]
      rw [show (st.vn ++ [p]) ++ ps = st.vn ++ (p :: ps) from by
        rw [List.append_assoc]; rfl]

/-! ## C3 support: the MTL companion file -/

theorem mtlReadGo_ok (ie : Str → Option (ℕ × ℕ)) (ls : List Str) :
    ∀ (mats : List (Option Str × (Str × (ℕ × ℕ)))) (cur : Option Str),
    (∀ a ∈ kdArgs ls, (ie a).isSome) →
    ∃ mats2, mtlReadGo ie mats cur ls = .ok mats2 := by
  induction ls with
  | nil => exact fun mats cur _ => ⟨mats, rfl⟩
  | cons line rest ih =>
      intro mats cur himg
      have hrest : ∀ a ∈ kdArgs rest, (ie a).isSome := fun a ha => himg a (by
        rw [kdArgs, List.filterMap_cons]
        cases kdArg line with
        | none => exact ha
        | some b => exact List.mem_cons_of_mem _ ha)
      rw [mtlReadGo]
      by_cases h1 : line = ['#']
      · rw [if_pos h1]
        exact ih mats cur hrest
      · rw [if_neg h1]
        cases h2 : pySplit1 line with
        | nil => exact ih mats cur hrest
        | cons cmd args =>
            cases args with
            | nil => exact ih mats cur hrest
            | cons arg0 args2 =>
                cases args2 with
                | cons x xs => exact ih mats cur hrest
                | nil =>
                    dsimp only
                    by_cases h3 : cmd = cNewmtl
                    · rw [if_pos h3]
                      exact ih mats _ hrest
                    · rw [if_neg h3]
                      by_cases h4 : cmd = cMapKd
                      · rw [if_pos h4]
                        have hk : kdArg line = some (rstrip arg0) := by
                          rw [kdArg, if_neg h1, h2]
                          dsimp only
                          rw [if_pos h4]
                        have hmem : rstrip arg0 ∈ kdArgs (line :: rest) := by
                          rw [kdArgs, List.filterMap_cons, hk]
                          exact List.mem_cons_self _ _
                        have hs := himg _ hmem
                        cases h5 : ie (rstrip arg0) with
                        | none => rw [h5] at hs; simp at hs
                        | some hw => exact ih _ cur hrest
                      · rw [if_neg h4]
                        exact ih mats cur hrest

theorem mtlRead_ok (ie : Str → Option (ℕ × ℕ)) (ls : List Str)
    (h : ∀ a ∈ kdArgs ls, (ie a).isSome) :
    ∃ mats, MtlLib.read ie ls = .ok ⟨mats, ls⟩ := by
  obtain ⟨mats2, h2⟩ := mtlReadGo_ok ie ls [] none h
  exact ⟨mats2, by rw [MtlLib.read, h2]; rfl⟩

theorem rewriteKd_nil_eq (line : Str) :
    rewriteKd [] line = line ∨
      ∃ cmd arg0, pySplit1 line = [cmd, arg0] ∧ cmd = cMapKd ∧ line ≠ ['#'] ∧
        rewriteKd [] line = cMapKd ++ ' ' :: rstrip arg0 := by
  by_cases h1 : line = ['#']
  · left
    rw [rewriteKd, if_pos h1]
  · rw [rewriteKd, if_neg h1]
    cases h2 : pySplit1 line with
    | nil => left; rfl
    | cons cmd args =>
        cases args with
        | nil => left; rfl
        | cons arg0 args2 =>
            cases args2 with
            | cons x xs => left; rfl
            | nil =>
                by_cases h4 : cmd = cMapKd
                · right
                  refine ⟨cmd, arg0, rfl, h4, h1, ?_⟩
                  dsimp only
                  rw [if_pos h4]
                  rfl
                · left
                  dsimp only
                  rw [if_neg h4]

theorem rewriteKd_idem (line : Str) :
    rewriteKd [] (rewriteKd [] line) = rewriteKd [] line := by
  rcases rewriteKd_nil_eq line with h | ⟨cmd, arg0, h2, h4, h1, hv⟩
  · rw [h, h]
  · obtain ⟨-, harg⟩ := pySplit1_eq_two h2
    obtain ⟨hh1, hh2⟩ := rstrip_wf harg
    rw [hv]
    have hne : cMapKd ++ ' ' :: rstrip arg0 ≠ ['#'] := by
      intro hx
      exact absurd (congrArg List.length hx) (by simp [cMapKd])
    have hsp : pySplit1 (cMapKd ++ ' ' :: rstrip arg0) = [cMapKd, rstrip arg0] :=
      pySplit1_two (by decide) hh1
    rw [rewriteKd, if_neg hne, hsp]
    dsimp only
    rw [if_pos rfl]
    rw [show pyDictGetD ([] : List (Str × Str)) (rstrip (rstrip arg0))
      (rstrip (rstrip arg0)) = rstrip (rstrip arg0) from rfl]
    rw [rstrip_eq_self hh2]

theorem kdArg_rewriteKd (line : Str) :
    kdArg (rewriteKd [] line) = kdArg line := by
  rcases rewriteKd_nil_eq line with h | ⟨cmd, arg0, h2, h4, h1, hv⟩
  · rw [h]
  · obtain ⟨-, harg⟩ := pySplit1_eq_two h2
    obtain ⟨hh1, hh2⟩ := rstrip_wf harg
    rw [hv]
    have hne : cMapKd ++ ' ' :: rstrip arg0 ≠ ['#'] := by
      intro hx
      exact absurd (congrArg List.length hx) (by simp [cMapKd])
    have hsp : pySplit1 (cMapKd ++ ' ' :: rstrip arg0) = [cMapKd, rstrip arg0] :=
      pySplit1_two (by decide) hh1
    rw [kdArg, if_neg hne, hsp, kdArg, if_neg h1, h2]
    dsimp only
    rw [if_pos rfl, if_pos h4, rstrip_eq_self hh2]

theorem map_rewriteKd_idem (ls : List Str) :
    (ls.map (rewriteKd [])).map (rewriteKd []) = ls.map (rewriteKd []) := by
  rw [List.map_map]
  exact List.map_congr_left (fun a _ => rewriteKd_idem a)

theorem kdArgs_map_rewriteKd (ls : List Str) :
    kdArgs (ls.map (rewriteKd [])) = kdArgs ls := by
  induction ls with
  | nil => rfl
  | cons l r ih =>
      simp only [kdArgs, List.map_cons, List.filterMap_cons, kdArg_rewriteKd] at ih ⊢
      cases kdArg l with
      | none => exact ih
      | some b => rw [ih]

/-! ## C3 support: the face-block round trip

The writer's face loop emits, for each run of faces sharing a material
id, a blank line, a `usemtl` line and the run's `f` lines.  Reading
that block back appends the same faces (in wire form) to the state,
appends the run names to `usemtl`, and produces a `f_mtl` column that
renumbers the runs consecutively — and re-writing with the accumulated
`usemtl` list reproduces the block verbatim. -/

theorem face_block_rt (ie : Str → Option (ℕ × ℕ)) (fe : Str → Option (List Str))
    (S : List Str) (ps : List (Face × ℤ)) :
    ∀ (last : Option ℤ) (L : List Str) (st : RdSt),
    faceLinesGo S last ps = .ok L →
    (∀ pm ∈ ps, ∀ nm, pyListGet S pm.2 = some nm → wfTok nm) →
    ∃ (st2 : RdSt) (newNames : List Str) (newIds : List ℤ),
      readLines ie fe st L = .ok st2 ∧
      st2.v = st.v ∧ st2.vt = st.vt ∧ st2.vn = st.vn ∧
      st2.mtllib = st.mtllib ∧
      st2.fflat = st.fflat ++ (ps.map Prod.fst).flatMap wireFlat ∧
      st2.usemtl = st.usemtl ++ newNames ∧
      st2.f_mtl = st.f_mtl ++ newIds ∧
      newIds.length = ps.length ∧
      faceLinesGo st2.usemtl (last.map (fun _ => (st.usemtl.length : ℤ) - 1))
        ((ps.map Prod.fst).zip newIds) = .ok L := by
  induction ps with
  | nil =>
      intro last L st hgo _
      rw [faceLinesGo] at hgo
      injection hgo with hL
      refine ⟨st, [], [], ?_, rfl, rfl, rfl, rfl, by simp, by simp, by simp, rfl, ?_⟩
      · rw [← hL]
        rfl
      · rw [← hL]
        rfl
  | cons pm rest ih =>
      intro last L st hgo hwf
      obtain ⟨fc, m⟩ := pm
      rw [faceLinesGo] at hgo
      have hwfrest : ∀ pm ∈ rest, ∀ nm, pyListGet S pm.2 = some nm → wfTok nm :=
        fun pm hpm => hwf pm (List.mem_cons_of_mem _ hpm)
      by_cases hb : some m = last
      · rw [if_pos hb] at hgo
        cases hrest : faceLinesGo S (some m) rest with
        | error e =>
            rw [hrest] at hgo
            exact absurd hgo (by simp [Except.map])
        | ok L2 =>
            rw [hrest] at hgo
            simp only [Except.map] at hgo
            injection hgo with hL
            subst hL
            obtain ⟨st2, nn, ni, hread, hv, hvt, hvn, hml, hff, hus, hfm, hlen, hwrite⟩ :=
              ih (some m) L2
                { st with
                  fflat := st.fflat ++ wireFlat fc,
                  f_mtl := st.f_mtl ++ [(st.usemtl.length : ℤ) - 1] }
                hrest hwfrest
            dsimp only at hread hv hvt hvn hml hff hus hfm hwrite
            simp only [Option.map_some'] at hwrite
            refine ⟨st2, nn, ((st.usemtl.length : ℤ) - 1) :: ni,
              ?_, hv, hvt, hvn, hml, ?_, hus, ?_, ?_, ?_⟩
            · rw [readLines, readLine_f]
              exact hread
            · rw [hff, List.map_cons, List.flatMap_cons, List.append_assoc]
            · rw [hfm, List.append_assoc]
              rfl
            · simp [hlen]
            · simp only [List.map_cons, List.zip_cons_cons]
              rw [faceLinesGo, if_pos (by rw [← hb]; rfl), hwrite]
              rfl
      · rw [if_neg hb] at hgo
        cases hnm : pyListGet S m with
        | none =>
            rw [hnm] at hgo
            exact absurd hgo (by simp)
        | some nm =>
            rw [hnm] at hgo
            cases hrest : faceLinesGo S (some m) rest with
            | error e =>
                rw [hrest] at hgo
                exact absurd hgo (by simp [Except.map])
            | ok L2 =>
                rw [hrest] at hgo
                simp only [Except.map] at hgo
                injection hgo with hL
                subst hL
                have hwfnm : wfTok nm := hwf ⟨fc, m⟩ (List.mem_cons_self _ _) nm hnm
                obtain ⟨st2, nn, ni, hread, hv, hvt, hvn, hml, hff, hus, hfm, hlen, hwrite⟩ :=
                  ih (some m) L2
                    { st with
                      usemtl := st.usemtl ++ [nm],
                      fflat := st.fflat ++ wireFlat fc,
                      f_mtl := st.f_mtl ++
                        [(((st.usemtl ++ [nm]).length : ℕ) : ℤ) - 1] }
                    hrest hwfrest
                dsimp only at hread hv hvt hvn hml hff hus hfm hwrite
                simp only [Option.map_some'] at hwrite
                refine ⟨st2, nm :: nn, ((((st.usemtl ++ [nm]).length : ℕ) : ℤ) - 1) :: ni,
                  ?_, hv, hvt, hvn, hml, ?_, ?_, ?_, ?_, ?_⟩
                · rw [readLines, readLine_nil]
                  show readLines ie fe st (usemtlLine nm :: fLine fc :: L2) = .ok st2
                  rw [readLines, readLine_usemtl ie fe st hwfnm]
                  show readLines ie fe { st with usemtl := st.usemtl ++ [nm] }
                    (fLine fc :: L2) = .ok st2
                  rw [readLines, readLine_f]
                  exact hread
                · rw [hff, List.map_cons, List.flatMap_cons, List.append_assoc]
                · rw [hus, List.append_assoc]
                  rfl
                · rw [hfm, List.append_assoc]
                  rfl
                · simp [hlen]
                · simp only [List.map_cons, List.zip_cons_cons]
                  have hbne : ¬ (some ((((st.usemtl ++ [nm]).length : ℕ) : ℤ) - 1) =
                      last.map (fun _ => (st.usemtl.length : ℤ) - 1)) := by
                    cases last with
                    | none => simp
                    | some m0 =>
                        simp only [Option.map_some', Option.some.injEq]
                        intro h
                        simp only [List.length_append, List.length_singleton] at h
                        push_cast at h
                        omega
                  rw [faceLinesGo, if_neg hbne]
                  have hget : pyListGet st2.usemtl
                      ((((st.usemtl ++ [nm]).length : ℕ) : ℤ) - 1) = some nm := by
                    rw [hus, pyListGet,
                      if_pos (by
                        simp only [List.length_append, List.length_singleton]
                        push_cast
                        omega)]
                    have htn : (((((st.usemtl ++ [nm]).length : ℕ) : ℤ) - 1)).toNat =
                        st.usemtl.length := by
                      rw [List.length_append]
                      simp
                    rw [htn, List.append_assoc]
                    exact get?_append_length st.usemtl nm nn
                  rw [hget, hwrite]
                  rfl

/-! ## C3 support: writer success and reshape lemmas -/

theorem faceLinesGo_ok (S : List Str) (ps : List (Face × ℤ)) :
    ∀ last, (∀ pm ∈ ps, (pyListGet S pm.2).isSome) →
    ∃ L, faceLinesGo S last ps = .ok L := by
  induction ps with
  | nil => exact fun last _ => ⟨[], rfl⟩
  | cons pm rest ih =>
      intro last h
      obtain ⟨fc, m⟩ := pm
      obtain ⟨L2, hL2⟩ := ih (some m) (fun q hq => h q (List.mem_cons_of_mem _ hq))
      rw [faceLinesGo]
      by_cases hb : some m = last
      · rw [if_pos hb, hL2]
        exact ⟨_, rfl⟩
      · rw [if_neg hb]
        have h2 : (pyListGet S m).isSome := h ⟨fc, m⟩ (List.mem_cons_self _ _)
        cases hnm : pyListGet S m with
        | none => rw [hnm] at h2; simp at h2
        | some nm =>
            rw [hL2]
            exact ⟨_, rfl⟩

theorem chunkFV_flat (fs : List Face) :
    chunkFV (fs.flatMap wireFlat) =
      some (fs.flatMap (fun fc => [wireUp fc.1, wireUp fc.2.1, wireUp fc.2.2])) := by
  induction fs with
  | nil => rfl
  | cons fc r ih =>
      rw [List.flatMap_cons]
      show chunkFV ((fc.1.1 + 1) :: (fc.1.2.1 + 1) :: (fc.1.2.2 + 1) ::
        (fc.2.1.1 + 1) :: (fc.2.1.2.1 + 1) :: (fc.2.1.2.2 + 1) ::
        (fc.2.2.1 + 1) :: (fc.2.2.2.1 + 1) :: (fc.2.2.2.2 + 1) ::
        r.flatMap wireFlat) = _
      rw [chunkFV, chunkFV, chunkFV, ih]
      rw [List.flatMap_cons]
      rfl

theorem chunkFace_flat (fs : List Face) :
    chunkFace (fs.flatMap (fun fc => [wireUp fc.1, wireUp fc.2.1, wireUp fc.2.2])) =
      some (fs.map wireUp3) := by
  induction fs with
  | nil => rfl
  | cons fc r ih =>
      rw [List.flatMap_cons]
      show chunkFace (wireUp fc.1 :: wireUp fc.2.1 :: wireUp fc.2.2 ::
        r.flatMap (fun fc => [wireUp fc.1, wireUp fc.2.1, wireUp fc.2.2])) = _
      rw [chunkFace, ih]
      rfl

theorem wireDown3_wireUp3 (fc : Face) : wireDown3 (wireUp3 fc) = fc := by
  obtain ⟨⟨a1, a2, a3⟩, ⟨b1, b2, b3⟩, ⟨c1, c2, c3⟩⟩ := fc
  simp [wireDown3, wireUp3, wireDown, wireUp]

theorem map_wireDown3_wireUp3 (fs : List Face) :
    (fs.map wireUp3).map wireDown3 = fs := by
  rw [List.map_map,
    show wireDown3 ∘ wireUp3 = id from funext fun fc => wireDown3_wireUp3 fc,
    List.map_id]

theorem except_bind_ok {e a b : Type _} (x : a) (f : a → Except e b) :
    (Except.ok (ε := e) x >>= f) = f x := rfl

/-! ## C3 -/

/-- C3 (amended): the write→read→write round trip is byte-identical
for meshes whose referenced material names resolve to well-formed
(non-empty, whitespace-free) tokens, with a non-empty whitespace-free
output stem, provided every `map_Kd` image of the attached material
library is readable: `Geometry.write` succeeds, re-reading its OBJ
output (with the emitted MTL companion as the filesystem) succeeds,
and re-writing the resulting geometry reproduces both emitted line
sequences exactly.  The unamended claim is refuted by
`claim_C3_counterexample`. -/
theorem claim_C3 (g : Geometry) (stem : Str) (ie : Str → Option (ℕ × ℕ))
    (hnm : ∀ m ∈ g.f_mtl, ∃ nm, pyListGet g.usemtl m = some nm ∧ wfTok nm)
    (hstem : wfTok stem)
    (himg : ∀ ml, g.mtllib = some ml → ∀ a ∈ kdArgs ml.lines, (ie a).isSome) :
    ∃ (obj1 : List Str) (mtl1 : Option (List Str)) (g1 : Geometry),
      Geometry.write g stem [] = .ok (obj1, mtl1) ∧
      Geometry.read ie (fsEnvOf stem mtl1) obj1 = .ok g1 ∧
      Geometry.write g1 stem [] = .ok (obj1, mtl1) := by
  have hps : ∀ pm ∈ g.f.zip g.f_mtl, (pyListGet g.usemtl pm.2).isSome := by
    intro pm hpm
    obtain ⟨fc, m⟩ := pm
    obtain ⟨nm, h1, -⟩ := hnm m (List.of_mem_zip hpm).2
    simp [h1]
  obtain ⟨fls, hfls⟩ := faceLinesGo_ok g.usemtl (g.f.zip g.f_mtl) none hps
  have hwfZ : ∀ pm ∈ g.f.zip g.f_mtl, ∀ nm, pyListGet g.usemtl pm.2 = some nm →
      wfTok nm := by
    intro pm hpm nm hget
    obtain ⟨fc, m⟩ := pm
    obtain ⟨nm2, h1, h2⟩ := hnm m (List.of_mem_zip hpm).2
    dsimp only at hget
    rw [h1] at hget
    injection hget with he
    exact he ▸ h2
  cases hml : g.mtllib with
  | none =>
      obtain ⟨st2, nn, ni, hread, hv, hvt, hvn, hmlS, hff, hus, hfm, -, hwrite⟩ :=
        face_block_rt ie (fsEnvOf stem none) g.usemtl (g.f.zip g.f_mtl) none fls
          { v := g.v, vt := g.vt, vn := g.vn, fflat := [], usemtl := [],
            f_mtl := [], mtllib := none }
          hfls hwfZ
      have hv2 : st2.v = g.v := hv
      have hvt2 : st2.vt = g.vt := hvt
      have hvn2 : st2.vn = g.vn := hvn
      have hml2 : st2.mtllib = none := hmlS
      have hff2 : st2.fflat = ((g.f.zip g.f_mtl).map Prod.fst).flatMap wireFlat := hff
      have hfm2 : st2.f_mtl = ni := hfm
      have hwr2 : faceLinesGo st2.usemtl none
          (((g.f.zip g.f_mtl).map Prod.fst).zip ni) = .ok fls := hwrite
      refine ⟨g.v.map vLine ++ g.vt.map vtLine ++ g.vn.map vnLine ++ fls, none,
        { v := st2.v, vt := st2.vt, vn := st2.vn,
          f := (g.f.zip g.f_mtl).map Prod.fst,
          mtllib := st2.mtllib, usemtl := st2.usemtl, f_mtl := st2.f_mtl },
        ?_, ?_, ?_⟩
      · rw [Geometry.write, hfls]
        simp only [Except.map, hml]
        rfl
      · have hrl : readLines ie (fsEnvOf stem none)
            { v := [], vt := [], vn := [], fflat := [], usemtl := [],
              f_mtl := [], mtllib := none }
            (g.v.map vLine ++ g.vt.map vtLine ++ g.vn.map vnLine ++ fls) =
            .ok st2 := by
          simp only [readLines_append, readLines_v_map, readLines_vt_map,
            readLines_vn_map, Except.bind]
          exact hread
        rw [Geometry.read, hrl, except_bind_ok]
        rw [hff2, chunkFV_flat]
        dsimp only
        rw [chunkFace_flat]
        dsimp only
        rw [map_wireDown3_wireUp3]
      · rw [Geometry.write]
        dsimp only
        rw [hfm2, hwr2]
        simp only [Except.map]
        rw [hml2]
        dsimp only
        rw [hv2, hvt2, hvn2]
        rfl
  | some ml =>
      have himg2 : ∀ a ∈ kdArgs ml.lines, (ie a).isSome := himg ml hml
      obtain ⟨mats1, hmread⟩ := mtlRead_ok ie (ml.lines.map (rewriteKd []))
        (by rw [kdArgs_map_rewriteKd]; exact himg2)
      have hstE : wfTok (stem ++ mtlExt) := by
        constructor
        · intro h
          exact hstem.1 (List.append_eq_nil.mp h).1
        · intro c hc
          rcases List.mem_append.mp hc with h | h
          · exact hstem.2 c h
          · simp only [mtlExt, List.mem_cons, List.not_mem_nil, or_false] at h
            rcases h with rfl | rfl | rfl | rfl <;> rfl
      have hfe : fsEnvOf stem (some (ml.lines.map (rewriteKd []))) (stem ++ mtlExt) =
          some (ml.lines.map (rewriteKd [])) := by
        simp [fsEnvOf]
      have hhdr : readLines ie (fsEnvOf stem (some (ml.lines.map (rewriteKd []))))
          { v := [], vt := [], vn := [], fflat := [], usemtl := [],
            f_mtl := [], mtllib := none } [mtllibLine stem] =
          .ok { v := [], vt := [], vn := [], fflat := [], usemtl := [],
                f_mtl := [],
                mtllib := some ⟨mats1, ml.lines.map (rewriteKd [])⟩ } := by
        rw [readLines, readLine_mtllib _ _ _ hstE hfe hmread]
        rfl
      obtain ⟨st2, nn, ni, hread, hv, hvt, hvn, hmlS, hff, hus, hfm, -, hwrite⟩ :=
        face_block_rt ie (fsEnvOf stem (some (ml.lines.map (rewriteKd []))))
          g.usemtl (g.f.zip g.f_mtl) none fls
          { v := g.v, vt := g.vt, vn := g.vn, fflat := [], usemtl := [],
            f_mtl := [], mtllib := some ⟨mats1, ml.lines.map (rewriteKd [])⟩ }
          hfls hwfZ
      have hv2 : st2.v = g.v := hv
      have hvt2 : st2.vt = g.vt := hvt
      have hvn2 : st2.vn = g.vn := hvn
      have hml2 : st2.mtllib = some ⟨mats1, ml.lines.map (rewriteKd [])⟩ := hmlS
      have hff2 : st2.fflat = ((g.f.zip g.f_mtl).map Prod.fst).flatMap wireFlat := hff
      have hfm2 : st2.f_mtl = ni := hfm
      have hwr2 : faceLinesGo st2.usemtl none
          (((g.f.zip g.f_mtl).map Prod.fst).zip ni) = .ok fls := hwrite
      refine ⟨[mtllibLine stem] ++ g.v.map vLine ++ g.vt.map vtLine ++
          g.vn.map vnLine ++ fls,
        some (ml.lines.map (rewriteKd [])),
        { v := st2.v, vt := st2.vt, vn := st2.vn,
          f := (g.f.zip g.f_mtl).map Prod.fst,
          mtllib := st2.mtllib, usemtl := st2.usemtl, f_mtl := st2.f_mtl },
        ?_, ?_, ?_⟩
      · rw [Geometry.write, hfls]
        simp only [Except.map, hml]
        rfl
      · have hrl : readLines ie (fsEnvOf stem (some (ml.lines.map (rewriteKd []))))
            { v := [], vt := [], vn := [], fflat := [], usemtl := [],
              f_mtl := [], mtllib := none }
            ([mtllibLine stem] ++ g.v.map vLine ++ g.vt.map vtLine ++
              g.vn.map vnLine ++ fls) = .ok st2 := by
          simp only [readLines_append, hhdr, readLines_v_map, readLines_vt_map,
            readLines_vn_map, Except.bind]
          exact hread
        rw [Geometry.read, hrl, except_bind_ok]
        rw [hff2, chunkFV_flat]
        dsimp only
        rw [chunkFace_flat]
        dsimp only
        rw [map_wireDown3_wireUp3]
      · rw [Geometry.write]
        dsimp only
        rw [hfm2, hwr2]
        simp only [Except.map]
        rw [hml2]
        dsimp only
        rw [hv2, hvt2, hvn2]
        simp only [Option.map_some', MtlLib.write]
        rw [map_rewriteKd_idem]

theorem except_bind_err {e a b : Type _} (err : e) (f : a → Except e b) :
    ((Except.error err : Except e a) >>= f) = Except.error err := rfl

theorem readLine_bad_usemtl (ie : Str → Option (ℕ × ℕ))
    (fe : Str → Option (List Str)) (st : RdSt) :
    readLine ie fe st (usemtlLine ['a', ' ', 'b']) = .error Err.malformedMesh := rfl

/-- C3 (counterexample): `Geometry.write` emits the material name
`a b` (containing a space) verbatim, but `Geometry.read` of the very
lines it produced fails with `MalformedMesh`: the whitespace split
turns the `usemtl` line into three tokens.  The serializer's output is
hence not always re-parseable, let alone byte-identically
re-serializable. -/
theorem claim_C3_counterexample :
    Geometry.write gBadName [] [] = .ok (badLines, none) ∧
    Geometry.read (fun _ => none) (fun _ => none) badLines =
      .error Err.malformedMesh := by
  constructor
  · rfl
  · have h1 : readLines (fun _ => none) (fun _ => none) {} badLines =
        .error Err.malformedMesh := by
      rw [badLines, readLines, readLine_v, except_bind_ok]
      rw [readLines, readLine_v, except_bind_ok]
      rw [readLines, readLine_v, except_bind_ok]
      rw [readLines, readLine_nil, except_bind_ok]
      rw [readLines, readLine_bad_usemtl, except_bind_err]
    rw [Geometry.read, h1]
    rfl

/-- C3 (witness): the amended round trip at the concrete one-triangle
one-material mesh `gC3` with output stem `out`: writing succeeds,
re-reading the emitted lines succeeds, and re-writing reproduces them
exactly. -/
theorem claim_C3_witness :
    ∃ (obj1 : List Str) (mtl1 : Option (List Str)) (g1 : Geometry),
      Geometry.write gC3 ['o', 'u', 't'] [] = .ok (obj1, mtl1) ∧
      Geometry.read (fun _ => none) (fsEnvOf ['o', 'u', 't'] mtl1) obj1 =
        .ok g1 ∧
      Geometry.write g1 ['o', 'u', 't'] [] = .ok (obj1, mtl1) :=
  claim_C3 gC3 ['o', 'u', 't'] (fun _ => none)
    (by
      intro m hm
      simp only [gC3, List.mem_cons, List.not_mem_nil, or_false] at hm
      subst hm
      exact ⟨['m', 'a', 't'], rfl, by decide⟩)
    (by decide)
    (by
      intro ml h
      simp [gC3] at h)
